import Mathlib

/-!
Verification of the xz-compat decompression core against its specification.

The definitions below are a shallow embedding of the TypeScript sources:
machine integers are modelled as `Nat` (reduced modulo 2^32 where the source
relies on 32-bit wraparound) or as `Int` where the source's use of signed
JavaScript 32-bit operators (`<<`, comparisons on possibly-negative values)
matters.  JavaScript reads past the end of a `Buffer` yield `undefined`,
which the source immediately coerces to 0 through `|` arithmetic; such reads
are modelled by `List.getD _ _ 0`.  All loops are translated as structurally
recursive functions over an explicit fuel argument that is always sufficient
for the source's termination behaviour.
-/

namespace XzCompat

/-- 2^32, the modulus of JavaScript unsigned 32-bit arithmetic. -/
def U32M : Nat := 4294967296

/-- Reduce to an unsigned 32-bit value (JavaScript `>>> 0`). -/
def toU32 (n : Nat) : Nat := n % U32M

/-- Interpret a value modulo 2^32 as a signed 32-bit integer (JavaScript `| 0`). -/
def toI32 (n : Nat) : Int :=
  if n % U32M < 2147483648 then (n % U32M : Int) else (n % U32M : Int) - 4294967296

/-- JavaScript `x << k` on a nonnegative value: 32-bit shift with signed result.
The shift count is reduced modulo 32 as JavaScript does. -/
def jsShl32 (x k : Nat) : Int := toI32 (x <<< (k % 32))

/-- JavaScript `x >>> 0` applied to an exact integer value. -/
def intToU32 (i : Int) : Nat := (i % (4294967296 : Int)).toNat

/-- Read a byte from a buffer; out-of-range reads give 0 (JavaScript
`undefined` coerced by the subsequent `|` arithmetic). -/
def bufGet (l : List Nat) (i : Nat) : Nat := l.getD i 0

/-- `Buffer.slice(a, b)` for nonnegative indices: clamps to the buffer length. -/
def jsSlice (l : List Nat) (a b : Nat) : List Nat := (l.drop a).take (b - a)

/-- Pointwise update of a function-modelled probability table. -/
def updf (f : Nat → Nat) (i v : Nat) : Nat → Nat := fun j => if j = i then v else f j

/-- Pointwise update of a doubly indexed table. -/
def updf2 (f : Nat → Nat → Nat) (i : Nat) (t : Nat → Nat) : Nat → Nat → Nat :=
  fun j => if j = i then t else f j

/-! ## Range decoder (src RangeDecoder.ts) -/

/-- State of the synchronous range decoder: bound input, read position and the
`code`/`range` registers, kept as values in `[0, 2^32)`. -/
structure RangeDecoder where
  input : List Nat
  pos : Nat
  code : Nat
  range : Nat
  deriving Repr

/-- `setInput`/`init`: skip the first byte, read four big-endian bytes into
`code`, set `range` to `0xFFFFFFFF`. -/
def rcSetInput (input : List Nat) (offset : Nat) : RangeDecoder :=
  let p0 := offset + 1
  let c1 := toU32 (bufGet input p0)
  let c2 := toU32 (c1 * 256 + bufGet input (p0 + 1))
  let c3 := toU32 (c2 * 256 + bufGet input (p0 + 2))
  let c4 := toU32 (c3 * 256 + bufGet input (p0 + 3))
  { input := input, pos := p0 + 4, code := c4, range := 4294967295 }

/-- `normalize`: when `range < 2^24` shift one more input byte into `code`
and scale `range` by 256. -/
def rcNormalize (rc : RangeDecoder) : RangeDecoder :=
  if rc.range < 16777216 then
    { rc with
      code := toU32 (rc.code * 256 + bufGet rc.input rc.pos)
      pos := rc.pos + 1
      range := toU32 (rc.range * 256) }
  else rc

/-- Result of decoding one bit: the bit, the updated decoder and the adapted
probability value. -/
structure BitRes where
  bit : Nat
  rc : RangeDecoder
  prob : Nat
  deriving Repr

/-- The arithmetic core of `decodeBit` before any normalization: compute
`bound = (range >>> 11) * prob`, compare `code` against it unsigned, update
`code`/`range` and adapt the probability. -/
def rcDecodeBitRaw (rc : RangeDecoder) (prob : Nat) : BitRes :=
  let newBound := rc.range / 2048 * prob
  if rc.code < newBound then
    { bit := 0, rc := { rc with range := newBound }, prob := prob + (2048 - prob) / 32 }
  else
    { bit := 1
      rc := { rc with range := rc.range - newBound, code := rc.code - newBound }
      prob := prob - prob / 32 }

/-- `decodeBit` as the source implements it: the comparison and updates first,
then a single normalization step. -/
def rcDecodeBit (rc : RangeDecoder) (prob : Nat) : BitRes :=
  let r := rcDecodeBitRaw rc prob
  { r with rc := rcNormalize r.rc }

/-- `decode_bit` as the specification describes it: normalize first when
`range < 2^24`, then compare and update. -/
def rcDecodeBitSpec (rc : RangeDecoder) (prob : Nat) : BitRes :=
  rcDecodeBitRaw (rcNormalize rc) prob

/-- Run `n` source-style `decodeBit` calls over a probability table, where the
index used for each call is chosen by `sel` from the bits decoded so far; this
covers every adaptive usage pattern of the real decoder.  Returns the decoder,
the final table and the bit sequence. -/
def runBitsCode : Nat → RangeDecoder → List Nat → (List Nat → Nat) → List Nat →
    RangeDecoder × List Nat × List Nat
  | 0, rc, probs, _, acc => (rc, probs, acc)
  | n + 1, rc, probs, sel, acc =>
    let i := sel acc
    let r := rcDecodeBit rc (probs.getD i 0)
    runBitsCode n r.rc (probs.set i r.prob) sel (acc ++ [r.bit])

/-- Run `n` specification-style `decode_bit` calls; same bookkeeping as
`runBitsCode`. -/
def runBitsSpec : Nat → RangeDecoder → List Nat → (List Nat → Nat) → List Nat →
    RangeDecoder × List Nat × List Nat
  | 0, rc, probs, _, acc => (rc, probs, acc)
  | n + 1, rc, probs, sel, acc =>
    let i := sel acc
    let r := rcDecodeBitSpec rc (probs.getD i 0)
    runBitsSpec n r.rc (probs.set i r.prob) sel (acc ++ [r.bit])

theorem rcDecodeBit_eq (rc : RangeDecoder) (p : Nat) :
    rcDecodeBit rc p = { rcDecodeBitRaw rc p with rc := rcNormalize (rcDecodeBitRaw rc p).rc } :=
  rfl

theorem rcDecodeBitSpec_eq (rc : RangeDecoder) (p : Nat) :
    rcDecodeBitSpec rc p = rcDecodeBitRaw (rcNormalize rc) p :=
  rfl

/-- Core simulation: the source decoder (normalize after the bit) run from a
normalized image of a state produces the same bits and probability evolution
as the specification decoder (normalize before the bit) run from that state. -/
theorem runBits_sim (n : Nat) : ∀ (probs : List Nat) (sel : List Nat → Nat) (acc : List Nat)
    (s : RangeDecoder),
    (runBitsCode n (rcNormalize s) probs sel acc).2 = (runBitsSpec n s probs sel acc).2 := by
  induction n with
  | zero => intro probs sel acc s; rfl
  | succ n ih =>
    intro probs sel acc s
    simp only [runBitsCode, runBitsSpec, rcDecodeBit_eq, rcDecodeBitSpec_eq]
    exact ih _ _ _ _

/-- C3: `decode_bit` normalizes (reads one byte into `code`, shifts `range`
left by 8) when `range < 2^24`, computes `bound = (range >> 11) * probs[idx]`,
compares `code < bound` unsigned, on 0 sets `range = bound` and adds
`(2048 − p) >> 5` to the probability, on 1 subtracts `bound` from `range` and
`code` and subtracts `p >> 5`; the decoded bit sequence and the final
probability table of the implementation equal those of this reference
description for every input and probability table.  (The source performs the
single normalization after the comparison rather than before the next one;
the two schedules coincide.) -/
theorem c3_decodeBit_matches_reference (input : List Nat) (offset : Nat) (probs : List Nat)
    (sel : List Nat → Nat) (n : Nat)
    (hprobs : ∀ p ∈ probs, p ≤ 2048) :
    (runBitsCode n (rcSetInput input offset) probs sel []).2 =
      (runBitsSpec n (rcSetInput input offset) probs sel []).2 := by
  have h : rcNormalize (rcSetInput input offset) = rcSetInput input offset := by
    simp [rcNormalize, rcSetInput]
  calc (runBitsCode n (rcSetInput input offset) probs sel []).2
      = (runBitsCode n (rcNormalize (rcSetInput input offset)) probs sel []).2 := by rw [h]
    _ = _ := runBits_sim n probs sel [] _

/-- Witness for C3 at a concrete input, table and adaptive index selector. -/
theorem c3_decodeBit_matches_reference_witness :
    (∀ p ∈ [1024, 1024], p ≤ 2048) ∧
    (runBitsCode 3 (rcSetInput [0, 5, 9, 200, 31, 77, 2] 0) [1024, 1024]
        (fun l => l.length % 2) []).2 =
      (runBitsSpec 3 (rcSetInput [0, 5, 9, 200, 31, 77, 2] 0) [1024, 1024]
        (fun l => l.length % 2) []).2 :=
  ⟨by decide,
    c3_decodeBit_matches_reference [0, 5, 9, 200, 31, 77, 2] 0 [1024, 1024]
      (fun l => l.length % 2) 3 (by decide)⟩

/-! ## Error kinds

The source throws `Error(message)`; the messages are modelled by the
constructors of `DecodeErr`, named after the thrown strings. -/

inductive DecodeErr where
  | truncatedChunkHeader
  | badControlByte (c : Nat)
  | invalidDistance
  | invalidLzmaProperties
  | lzmaChunkWithoutProperties
  | requiresPropertiesByte
  | invalidDictProp
  | truncatedLzma2Stream
  | truncatedMultibyte
  | multibyteTooLarge
  | badBlockHeaderSize
  | unsupportedFilter (id : Nat)
  | noLzma2Filter
  | invalidMagic
  | badFooter
  | invalidBackwardSize
  | invalidIndexIndicator
  | cannotCombineBuffers
  deriving DecidableEq, Repr

/-! ## Bit-tree and direct-bit decoders (src RangeDecoder.ts) -/

/-- Result of a tree decode: symbol, updated range decoder, updated table. -/
structure TreeRes where
  sym : Nat
  rc : RangeDecoder
  models : Nat → Nat

/-- Forward bit-tree walk: `m = (m << 1) | decodeBit(models, m)`, repeated. -/
def bitTreeDecodeAux : Nat → RangeDecoder → (Nat → Nat) → Nat →
    RangeDecoder × (Nat → Nat) × Nat
  | 0, rc, models, m => (rc, models, m)
  | i + 1, rc, models, m =>
    let r := rcDecodeBit rc (models m)
    bitTreeDecodeAux i r.rc (updf models m r.prob) (2 * m + r.bit)

/-- `BitTreeDecoder.decode`: forward walk, result `m - (1 << numBitLevels)`. -/
def bitTreeDecode (numBitLevels : Nat) (rc : RangeDecoder) (models : Nat → Nat) : TreeRes :=
  let r := bitTreeDecodeAux numBitLevels rc models 1
  { sym := r.2.2 - 2 ^ numBitLevels, rc := r.1, models := r.2.1 }

/-- Reverse bit-tree walk over a table at offset `start` (the offset may be
`-1` for the shared `posDecoders` array; `start + m ≥ 0` always holds). -/
def reverseDecodeAux : Nat → Nat → RangeDecoder → (Nat → Nat) → Int → Nat → Nat →
    RangeDecoder × (Nat → Nat) × Nat
  | 0, _, rc, models, _, _, symbol => (rc, models, symbol)
  | cnt + 1, i, rc, models, start, m, symbol =>
    let idx := (start + m).toNat
    let r := rcDecodeBit rc (models idx)
    reverseDecodeAux cnt (i + 1) r.rc (updf models idx r.prob) start (2 * m + r.bit)
      (symbol + r.bit * 2 ^ i)

/-- `reverseDecodeFromArray` and `BitTreeDecoder.reverseDecode` (the latter is
the `start = 0` case of the same loop). -/
def reverseDecodeFrom (models : Nat → Nat) (start : Int) (rc : RangeDecoder)
    (numBitLevels : Nat) : TreeRes :=
  let r := reverseDecodeAux numBitLevels 0 rc models start 1 0
  { sym := r.2.2, rc := r.1, models := r.2.1 }

/-- `decodeDirectBits`: per bit halve `range`, set the bit from the unsigned
comparison of `code` and `range`, subtract `range` from `code` when the bit is
1, normalize. -/
def rcDecodeDirectBitsAux : Nat → RangeDecoder → Nat → RangeDecoder × Nat
  | 0, rc, result => (rc, result)
  | n + 1, rc, result =>
    let range := rc.range / 2
    let t := (rc.code + U32M - range) % U32M / 2147483648
    let code := if t = 0 then (rc.code + U32M - range) % U32M else rc.code
    let rc2 := rcNormalize { rc with range := range, code := code }
    rcDecodeDirectBitsAux n rc2 (2 * result + (1 - t))

/-! ## Length decoder (src LzmaDecoder.ts, class LenDecoder)

All probability tables are modelled as total functions defaulting to the
initialization value 1024; on-demand creation of fresh all-1024 tables in the
source is observationally the identity in this model. -/

structure LenDecoder where
  choice : Nat → Nat
  lowCoder : Nat → Nat → Nat
  midCoder : Nat → Nat → Nat
  highCoder : Nat → Nat
  numPosStates : Nat

def lenDecoderNew : LenDecoder :=
  { choice := fun _ => 1024, lowCoder := fun _ _ => 1024, midCoder := fun _ _ => 1024
    highCoder := fun _ => 1024, numPosStates := 0 }

/-- `create`: grows the per-pos-state tree arrays without reinitializing
existing trees (new trees are fresh, i.e. the default in this model). -/
def lenDecoderCreate (ld : LenDecoder) (numPosStates : Nat) : LenDecoder :=
  { ld with numPosStates := max ld.numPosStates numPosStates }

/-- `init`: reinitializes the choice probabilities and every created tree.
Untracked (never created) trees are already at the default. -/
def lenDecoderInit (ld : LenDecoder) : LenDecoder :=
  { lenDecoderNew with numPosStates := ld.numPosStates }

structure LenRes where
  len : Nat
  rc : RangeDecoder
  ld : LenDecoder

/-- `LenDecoder.decode`: choice bits select the low (0–7), mid (8–15) or high
(16–271) length range. -/
def lenDecoderDecode (ld : LenDecoder) (rc : RangeDecoder) (posState : Nat) : LenRes :=
  let r0 := rcDecodeBit rc (ld.choice 0)
  let ld0 := { ld with choice := updf ld.choice 0 r0.prob }
  if r0.bit = 0 then
    let t := bitTreeDecode 3 r0.rc (ld0.lowCoder posState)
    { len := t.sym, rc := t.rc
      ld := { ld0 with lowCoder := updf2 ld0.lowCoder posState t.models } }
  else
    let r1 := rcDecodeBit r0.rc (ld0.choice 1)
    let ld1 := { ld0 with choice := updf ld0.choice 1 r1.prob }
    if r1.bit = 0 then
      let t := bitTreeDecode 3 r1.rc (ld1.midCoder posState)
      { len := 8 + t.sym, rc := t.rc
        ld := { ld1 with midCoder := updf2 ld1.midCoder posState t.models } }
    else
      let t := bitTreeDecode 8 r1.rc ld1.highCoder
      { len := 16 + t.sym, rc := t.rc, ld := { ld1 with highCoder := t.models } }

/-! ## Literal decoder (src LzmaDecoder.ts, classes LiteralDecoder2/LiteralDecoder) -/

structure LiteralDecoder where
  numPosBits : Nat
  numPrevBits : Nat
  posMask : Nat
  coders : Nat → Nat → Nat

def literalDecoderNew : LiteralDecoder :=
  { numPosBits := 0, numPrevBits := 0, posMask := 0, coders := fun _ _ => 1024 }

/-- `LiteralDecoder.create`: keep the coders when the parameters are
unchanged, otherwise reset them (an unused coder array equals the default, so
the source's extra emptiness test is observationally covered). -/
def literalDecoderCreate (l : LiteralDecoder) (numPosBits numPrevBits : Nat) : LiteralDecoder :=
  if l.numPrevBits = numPrevBits ∧ l.numPosBits = numPosBits then l
  else
    { numPosBits := numPosBits, posMask := 2 ^ numPosBits - 1, numPrevBits := numPrevBits
      coders := fun _ _ => 1024 }

/-- `LiteralDecoder.init`: reinitialize every created coder. -/
def literalDecoderInit (l : LiteralDecoder) : LiteralDecoder :=
  { l with coders := fun _ _ => 1024 }

/-- `getDecoder` index: `((pos & posMask) << numPrevBits) + ((prevByte & 0xff) >>> (8 − numPrevBits))`. -/
def literalCoderIndex (l : LiteralDecoder) (pos prevByte : Nat) : Nat :=
  ((pos &&& l.posMask) <<< l.numPrevBits) + ((prevByte % 256) >>> (8 - l.numPrevBits))

structure LitRes where
  sym : Nat
  rc : RangeDecoder
  table : Nat → Nat

/-- The plain 8-bit arithmetic literal loop (`while symbol < 0x100`); entered
with `symbol = 1`, so the source's do-while form coincides. -/
def litDecodeNormalAux : Nat → RangeDecoder → (Nat → Nat) → Nat → LitRes
  | 0, rc, table, symbol => { sym := symbol, rc := rc, table := table }
  | f + 1, rc, table, symbol =>
    if symbol < 256 then
      let r := rcDecodeBit rc (table symbol)
      litDecodeNormalAux f r.rc (updf table symbol r.prob) (2 * symbol + r.bit)
    else { sym := symbol, rc := rc, table := table }

/-- `LiteralDecoder2.decodeNormal`. -/
def litDecodeNormal (rc : RangeDecoder) (table : Nat → Nat) : LitRes :=
  let r := litDecodeNormalAux 8 rc table 1
  { r with sym := r.sym % 256 }

/-- `LiteralDecoder2.decodeWithMatchByte`: XOR-branches on the bits of the
byte found at distance `rep0`; on the first mismatch falls back to the plain
loop. -/
def litDecodeMatchAux : Nat → RangeDecoder → (Nat → Nat) → Nat → Nat → LitRes
  | 0, rc, table, _, symbol => { sym := symbol, rc := rc, table := table }
  | f + 1, rc, table, mb, symbol =>
    if symbol < 256 then
      let matchBit := mb / 128 % 2
      let idx := (1 + matchBit) * 256 + symbol
      let r := rcDecodeBit rc (table idx)
      let table2 := updf table idx r.prob
      let symbol2 := 2 * symbol + r.bit
      if matchBit ≠ r.bit then litDecodeNormalAux f r.rc table2 symbol2
      else litDecodeMatchAux f r.rc table2 (mb * 2) symbol2
    else { sym := symbol, rc := rc, table := table }

def litDecodeWithMatchByte (rc : RangeDecoder) (table : Nat → Nat) (matchByte : Nat) : LitRes :=
  let r := litDecodeMatchAux 8 rc table matchByte 1
  { r with sym := r.sym % 256 }

/-! ## Output window (src LzmaDecoder.ts, class OutWindow)

The byte buffer is a total function (the source allocates uninitialized
memory; cells that were never written are never read on the runs considered
here, and are modelled as 0). -/

structure OutWindow where
  buffer : Nat → Nat
  windowSize : Nat
  pos : Nat
  streamPos : Nat
  hasSink : Bool
  sinkOut : List Nat

def owNew (hasSink : Bool) : OutWindow :=
  { buffer := fun _ => 0, windowSize := 0, pos := 0, streamPos := 0
    hasSink := hasSink, sinkOut := [] }

def owCreate (w : OutWindow) (windowSize : Nat) : OutWindow :=
  { w with buffer := fun _ => 0, windowSize := windowSize, pos := 0, streamPos := 0 }

def owInit (w : OutWindow) (solid : Bool) : OutWindow :=
  if solid then w else { w with pos := 0, streamPos := 0 }

/-- `flush`: emit `buffer[streamPos .. pos)` to the sink. -/
def owFlush (w : OutWindow) : OutWindow :=
  let size := w.pos - w.streamPos
  if 0 < size ∧ w.hasSink then
    { w with sinkOut := w.sinkOut ++ (List.range size).map (fun i => w.buffer (w.streamPos + i))
             streamPos := w.pos }
  else w

/-- `putByte`: write at `pos`, advance, and wrap (flushing first in sink
mode) when the window is full. -/
def owPutByte (w : OutWindow) (b : Nat) : OutWindow :=
  let w := { w with buffer := updf w.buffer w.pos b, pos := w.pos + 1 }
  if w.pos ≥ w.windowSize then
    if w.hasSink then { owFlush w with pos := 0, streamPos := 0 }
    else { w with pos := 0 }
  else w

/-- `getByte(distance)`: read `distance + 1` positions back, wrapping once. -/
def owGetByte (w : OutWindow) (distance : Int) : Nat :=
  let p : Int := (w.pos : Int) - distance - 1
  let p := if p < 0 then p + w.windowSize else p
  if 0 ≤ p then w.buffer p.toNat else 0

def owPutBytes : List Nat → OutWindow → OutWindow
  | [], w => w
  | b :: rest, w => owPutBytes rest (owPutByte w b)

/-- The match-copy loop of the symbol decoder: repeatedly read the byte at
distance `rep0` and append it, collecting the emitted bytes. -/
def owCopyMatch : Nat → OutWindow → Int → OutWindow × List Nat
  | 0, w, _ => (w, [])
  | n + 1, w, dist =>
    let b := owGetByte w dist
    let w2 := owPutByte w b
    let r := owCopyMatch n w2 dist
    (r.1, b :: r.2)

/-! ## LZMA state machine (src types.ts and LzmaDecoder.ts) -/

def stateUpdateChar (state : Nat) : Nat :=
  if state < 4 then 0 else if state < 10 then state - 3 else state - 6

def stateUpdateMatch (state : Nat) : Nat := if state < 7 then 7 else 10

def stateUpdateRep (state : Nat) : Nat := if state < 7 then 8 else 11

def stateUpdateShortRep (state : Nat) : Nat := if state < 7 then 9 else 11

def stateIsCharState (state : Nat) : Bool := state < 7

def getLenToPosState (len : Nat) : Nat :=
  let l := len - 2
  if l < 4 then l else 3

structure LzmaDecoder where
  outWindow : OutWindow
  rangeDecoder : RangeDecoder
  isMatchDecoders : Nat → Nat
  isRepDecoders : Nat → Nat
  isRepG0Decoders : Nat → Nat
  isRepG1Decoders : Nat → Nat
  isRepG2Decoders : Nat → Nat
  isRep0LongDecoders : Nat → Nat
  posSlotDecoder : Nat → Nat → Nat
  posDecoders : Nat → Nat
  posAlignDecoder : Nat → Nat
  lenDecoder : LenDecoder
  repLenDecoder : LenDecoder
  literalDecoder : LiteralDecoder
  dictionarySize : Int
  dictionarySizeCheck : Int
  posStateMask : Nat
  state : Nat
  rep0 : Int
  rep1 : Int
  rep2 : Int
  rep3 : Int
  prevByte : Nat
  totalPos : Nat

/-- The constructor of `LzmaDecoder`: all probability models at 1024,
`dictionarySize = dictionarySizeCheck = -1`, zeroed state. -/
def lzmaDecoderNew (hasSink : Bool) : LzmaDecoder :=
  { outWindow := owNew hasSink
    rangeDecoder := { input := [], pos := 0, code := 0, range := 0 }
    isMatchDecoders := fun _ => 1024
    isRepDecoders := fun _ => 1024
    isRepG0Decoders := fun _ => 1024
    isRepG1Decoders := fun _ => 1024
    isRepG2Decoders := fun _ => 1024
    isRep0LongDecoders := fun _ => 1024
    posSlotDecoder := fun _ _ => 1024
    posDecoders := fun _ => 1024
    posAlignDecoder := fun _ => 1024
    lenDecoder := lenDecoderNew
    repLenDecoder := lenDecoderNew
    literalDecoder := literalDecoderNew
    dictionarySize := -1
    dictionarySizeCheck := -1
    posStateMask := 0
    state := 0, rep0 := 0, rep1 := 0, rep2 := 0, rep3 := 0
    prevByte := 0, totalPos := 0 }

/-- `setDictionarySize`: negative sizes are rejected; otherwise the window is
recreated as `max(dictionarySizeCheck, 4096)` bytes when the size changed. -/
def lzmaSetDictionarySize (d : LzmaDecoder) (dictionarySize : Int) : Bool × LzmaDecoder :=
  if dictionarySize < 0 then (false, d)
  else if d.dictionarySize ≠ dictionarySize then
    (true, { d with
      dictionarySize := dictionarySize
      dictionarySizeCheck := max dictionarySize 1
      outWindow := owCreate d.outWindow (max (max dictionarySize 1) 4096).toNat })
  else (true, d)

/-- `setLcLpPb`: reject `lc > 8`, `lp > 4` or `pb > 4`. -/
def lzmaSetLcLpPb (d : LzmaDecoder) (lc lp pb : Nat) : Bool × LzmaDecoder :=
  if lc > 8 ∨ lp > 4 ∨ pb > 4 then (false, d)
  else
    let numPosStates := 2 ^ pb
    (true, { d with
      literalDecoder := literalDecoderCreate d.literalDecoder lp lc
      lenDecoder := lenDecoderCreate d.lenDecoder numPosStates
      repLenDecoder := lenDecoderCreate d.repLenDecoder numPosStates
      posStateMask := numPosStates - 1 })

def lzmaInitProbabilities (d : LzmaDecoder) : LzmaDecoder :=
  { d with
    isMatchDecoders := fun _ => 1024
    isRepDecoders := fun _ => 1024
    isRepG0Decoders := fun _ => 1024
    isRepG1Decoders := fun _ => 1024
    isRepG2Decoders := fun _ => 1024
    isRep0LongDecoders := fun _ => 1024
    posSlotDecoder := fun _ _ => 1024
    posDecoders := fun _ => 1024
    posAlignDecoder := fun _ => 1024
    literalDecoder := literalDecoderInit d.literalDecoder
    lenDecoder := lenDecoderInit d.lenDecoder
    repLenDecoder := lenDecoderInit d.repLenDecoder }

def lzmaResetProbabilities (d : LzmaDecoder) : LzmaDecoder :=
  { lzmaInitProbabilities d with state := 0, rep0 := 0, rep1 := 0, rep2 := 0, rep3 := 0 }

def lzmaResetDictionary (d : LzmaDecoder) : LzmaDecoder :=
  { d with outWindow := owInit d.outWindow false, totalPos := 0 }

/-- `feedUncompressed`: append bytes to the window, advance `totalPos` and
track the last byte as `prevByte`. -/
def lzmaFeedUncompressed (d : LzmaDecoder) (data : List Nat) : LzmaDecoder :=
  { d with
    outWindow := owPutBytes data d.outWindow
    totalPos := d.totalPos + data.length
    prevByte := if 0 < data.length then bufGet data (data.length - 1) else d.prevByte }

/-- The literal case of the symbol loop: pick the sub-decoder from
`(cumPos, prevByte)`, use the matched variant when `state ≥ 7`, emit the byte
into the window. -/
def lzmaLiteralStep (d : LzmaDecoder) (cumPos : Nat) : LzmaDecoder × Nat :=
  let idx := literalCoderIndex d.literalDecoder cumPos d.prevByte
  let table := d.literalDecoder.coders idx
  let r :=
    if stateIsCharState d.state then litDecodeNormal d.rangeDecoder table
    else litDecodeWithMatchByte d.rangeDecoder table (owGetByte d.outWindow d.rep0)
  let b := r.sym
  ({ d with
      rangeDecoder := r.rc
      literalDecoder := { d.literalDecoder with coders := updf2 d.literalDecoder.coders idx r.table }
      prevByte := b
      outWindow := owPutByte d.outWindow b
      state := stateUpdateChar d.state }, b)

/-- The rep-match sub-branch (`is_rep = 1`): short rep, or promotion of one of
`rep1..rep3` followed by a rep-length decode. -/
def lzmaDecodeRepMatch (d : LzmaDecoder) (posState : Nat) : LzmaDecoder × Nat :=
  let r := rcDecodeBit d.rangeDecoder (d.isRepG0Decoders d.state)
  let d := { d with rangeDecoder := r.rc, isRepG0Decoders := updf d.isRepG0Decoders d.state r.prob }
  if r.bit = 0 then
    let idx := (d.state <<< 4) + posState
    let r2 := rcDecodeBit d.rangeDecoder (d.isRep0LongDecoders idx)
    let d := { d with rangeDecoder := r2.rc, isRep0LongDecoders := updf d.isRep0LongDecoders idx r2.prob }
    if r2.bit = 0 then
      ({ d with state := stateUpdateShortRep d.state }, 1)
    else
      let lr := lenDecoderDecode d.repLenDecoder d.rangeDecoder posState
      ({ d with rangeDecoder := lr.rc, repLenDecoder := lr.ld, state := stateUpdateRep d.state },
        2 + lr.len)
  else
    let r1 := rcDecodeBit d.rangeDecoder (d.isRepG1Decoders d.state)
    let d := { d with rangeDecoder := r1.rc, isRepG1Decoders := updf d.isRepG1Decoders d.state r1.prob }
    let p :=
      if r1.bit = 0 then (d, d.rep1)
      else
        let r2 := rcDecodeBit d.rangeDecoder (d.isRepG2Decoders d.state)
        let d := { d with rangeDecoder := r2.rc, isRepG2Decoders := updf d.isRepG2Decoders d.state r2.prob }
        if r2.bit = 0 then ({ d with rep2 := d.rep1 }, d.rep2)
        else ({ d with rep3 := d.rep2, rep2 := d.rep1 }, d.rep3)
    let d := p.1
    let d := { d with rep1 := d.rep0, rep0 := p.2 }
    let lr := lenDecoderDecode d.repLenDecoder d.rangeDecoder posState
    ({ d with rangeDecoder := lr.rc, repLenDecoder := lr.ld, state := stateUpdateRep d.state },
      2 + lr.len)

structure DistLenRes where
  dec : LzmaDecoder
  len : Nat
  /-- whether the `posSlot ≥ kEndPosModelIndex` branch (which contains the
  negative-distance / end-marker test) was taken -/
  endPosBranch : Bool

/-- The normal-match sub-branch (`is_rep = 0`): shuffle the rep queue, decode
the length and the position slot, and reconstruct the distance.  The base
`(2 | (posSlot & 1)) << numDirectBits` uses the JavaScript signed 32-bit
shift and may be negative for `posSlot ≥ 62`. -/
def lzmaDecodeNormalMatch (d : LzmaDecoder) (posState : Nat) : DistLenRes :=
  let d := { d with rep3 := d.rep2, rep2 := d.rep1, rep1 := d.rep0 }
  let lr := lenDecoderDecode d.lenDecoder d.rangeDecoder posState
  let len := 2 + lr.len
  let d := { d with rangeDecoder := lr.rc, lenDecoder := lr.ld, state := stateUpdateMatch d.state }
  let lps := getLenToPosState len
  let t := bitTreeDecode 6 d.rangeDecoder (d.posSlotDecoder lps)
  let posSlot := t.sym
  let d := { d with rangeDecoder := t.rc, posSlotDecoder := updf2 d.posSlotDecoder lps t.models }
  if posSlot ≥ 4 then
    let numDirectBits := (posSlot >>> 1) - 1
    let rep0 : Int := jsShl32 (2 ||| (posSlot &&& 1)) numDirectBits
    if posSlot < 14 then
      let rv := reverseDecodeFrom d.posDecoders (rep0 - posSlot - 1) d.rangeDecoder numDirectBits
      { dec := { d with rangeDecoder := rv.rc, posDecoders := rv.models, rep0 := rep0 + rv.sym }
        len := len, endPosBranch := false }
    else
      let db := rcDecodeDirectBitsAux (numDirectBits - 4) d.rangeDecoder 0
      let rep0 := rep0 + (db.2 <<< 4 : Nat)
      let av := reverseDecodeFrom d.posAlignDecoder 0 db.1 4
      { dec := { d with rangeDecoder := av.rc, posAlignDecoder := av.models, rep0 := rep0 + av.sym }
        len := len, endPosBranch := true }
  else
    { dec := { d with rep0 := posSlot }, len := len, endPosBranch := false }

/-- The whole match/rep distance-and-length resolution (everything between
the `is_match = 1` bit and the distance validity test). -/
def lzmaDecodeMatchDistLen (d : LzmaDecoder) (posState : Nat) : DistLenRes :=
  let r := rcDecodeBit d.rangeDecoder (d.isRepDecoders d.state)
  let d := { d with rangeDecoder := r.rc, isRepDecoders := updf d.isRepDecoders d.state r.prob }
  if r.bit = 1 then
    let p := lzmaDecodeRepMatch d posState
    { dec := p.1, len := p.2, endPosBranch := false }
  else
    lzmaDecodeNormalMatch d posState

structure MatchRes where
  dec : LzmaDecoder
  bytes : List Nat
  cumPos : Nat
  marker : Bool

/-- The guarded tail of the match case: the end-marker / negative-distance
test of the `posSlot ≥ 14` branch, then the distance validity test
`rep0 ≥ cumPos || rep0 ≥ dictionarySizeCheck` (throwing `InvalidDistance`),
then the copy of `len` bytes from distance `rep0`. -/
def lzmaMatchStep (d : LzmaDecoder) (posState cumPos : Nat) : Except DecodeErr MatchRes :=
  let r := lzmaDecodeMatchDistLen d posState
  let d1 := r.dec
  if r.endPosBranch ∧ d1.rep0 < 0 then
    if d1.rep0 = -1 then Except.ok { dec := d1, bytes := [], cumPos := cumPos, marker := true }
    else Except.error DecodeErr.invalidDistance
  else if d1.rep0 ≥ (cumPos : Int) ∨ d1.rep0 ≥ d1.dictionarySizeCheck then
    Except.error DecodeErr.invalidDistance
  else
    let c := owCopyMatch r.len d1.outWindow d1.rep0
    let d2 := { d1 with outWindow := c.1 }
    let d2 := { d2 with prevByte := owGetByte d2.outWindow 0 }
    Except.ok { dec := d2, bytes := c.2, cumPos := cumPos + r.len, marker := false }

structure LoopRes where
  dec : LzmaDecoder
  outPos : Nat
  cumPos : Nat
  out : List Nat
  marker : Bool

/-- The symbol loop shared by `decodeToBuffer` and `decodeWithSink` (the two
source loops differ only in where the produced bytes are additionally stored;
`out` collects them).  Fuel is the number of remaining iterations; every
iteration produces at least one byte, so `outSize` fuel always suffices and
the fuel-exhaustion branch is unreachable when so invoked. -/
def lzmaDecodeLoop : Nat → LzmaDecoder → Nat → Nat → Nat → List Nat → Except DecodeErr LoopRes
  | 0, d, outPos, _, cumPos, out =>
    Except.ok { dec := d, outPos := outPos, cumPos := cumPos, out := out, marker := false }
  | fuel + 1, d, outPos, outEnd, cumPos, out =>
    if outPos < outEnd then
      let posState := cumPos &&& d.posStateMask
      let idx := (d.state <<< 4) + posState
      let r := rcDecodeBit d.rangeDecoder (d.isMatchDecoders idx)
      let d := { d with rangeDecoder := r.rc, isMatchDecoders := updf d.isMatchDecoders idx r.prob }
      if r.bit = 0 then
        let p := lzmaLiteralStep d cumPos
        lzmaDecodeLoop fuel p.1 (outPos + 1) outEnd (cumPos + 1) (out ++ [p.2])
      else
        match lzmaMatchStep d posState cumPos with
        | Except.error e => Except.error e
        | Except.ok m =>
          if m.marker then
            Except.ok { dec := m.dec, outPos := outPos, cumPos := m.cumPos, out := out, marker := true }
          else
            lzmaDecodeLoop fuel m.dec (outPos + m.bytes.length) outEnd m.cumPos (out ++ m.bytes)
    else Except.ok { dec := d, outPos := outPos, cumPos := cumPos, out := out, marker := false }

/-- `LzmaDecoder.decodeToBuffer`: bind the range decoder at `inputOffset`,
reset everything unless solid, and run the symbol loop for `outSize` output
bytes.  Returns the final decoder (with `totalPos` updated) and the produced
bytes. -/
def lzmaDecodeToBuffer (d : LzmaDecoder) (input : List Nat) (inputOffset outSize : Nat)
    (solid : Bool) : Except DecodeErr (LzmaDecoder × List Nat) :=
  let d := { d with rangeDecoder := rcSetInput input inputOffset }
  let d :=
    if solid then { d with outWindow := owInit d.outWindow true }
    else
      { lzmaInitProbabilities d with
        outWindow := owInit d.outWindow false
        state := 0, rep0 := 0, rep1 := 0, rep2 := 0, rep3 := 0, prevByte := 0, totalPos := 0 }
  match lzmaDecodeLoop outSize d 0 outSize d.totalPos [] with
  | Except.error e => Except.error e
  | Except.ok r => Except.ok ({ r.dec with totalPos := r.cumPos }, r.out)

/-- `LzmaDecoder.decodeWithSink`: the same symbol loop, with output delivered
through the window's sink; returns the count of produced bytes. -/
def lzmaDecodeWithSink (d : LzmaDecoder) (input : List Nat) (inputOffset outSize : Nat)
    (solid : Bool) : Except DecodeErr (LzmaDecoder × Nat) :=
  let d := { d with rangeDecoder := rcSetInput input inputOffset }
  let d :=
    if solid then { d with outWindow := owInit d.outWindow true }
    else
      { lzmaInitProbabilities d with
        outWindow := owInit d.outWindow false
        state := 0, rep0 := 0, rep1 := 0, rep2 := 0, rep3 := 0, prevByte := 0, totalPos := 0 }
  match lzmaDecodeLoop outSize d 0 outSize d.totalPos [] with
  | Except.error e => Except.error e
  | Except.ok r => Except.ok ({ r.dec with totalPos := r.cumPos }, r.outPos)

/-! ## LZMA2 chunk parsing (src Lzma2ChunkParser.ts) -/

inductive ChunkType where
  | endOfStream
  | uncompressed
  | lzma
  deriving DecidableEq, Repr

structure Lzma2Chunk where
  ctype : ChunkType
  headerSize : Nat
  dictReset : Bool
  stateReset : Bool
  newProps : Option (Nat × Nat × Nat)
  uncompSize : Nat
  compSize : Nat
  deriving DecidableEq, Repr

/-- The three outcomes of `parseLzma2ChunkHeader`: a parsed chunk, a request
for more bytes, or the `Invalid LZMA2 control byte` throw. -/
inductive ParseResult where
  | success (chunk : Lzma2Chunk)
  | needBytes (n : Nat)
  | badControl (c : Nat)
  deriving DecidableEq, Repr

/-- `parseLzma2ChunkHeader`. -/
def parseLzma2ChunkHeader (input : List Nat) (offset : Nat) : ParseResult :=
  if offset ≥ input.length then ParseResult.needBytes 1
  else
    let control := bufGet input offset
    if control = 0 then
      ParseResult.success
        { ctype := ChunkType.endOfStream, headerSize := 1, dictReset := false
          stateReset := false, newProps := none, uncompSize := 0, compSize := 0 }
    else if control = 1 ∨ control = 2 then
      if offset + 3 > input.length then ParseResult.needBytes (3 - (input.length - offset))
      else
        let uncompSize := ((bufGet input (offset + 1) <<< 8) ||| bufGet input (offset + 2)) + 1
        ParseResult.success
          { ctype := ChunkType.uncompressed, headerSize := 3, dictReset := control == 1
            stateReset := false, newProps := none, uncompSize := uncompSize, compSize := 0 }
    else if control ≥ 128 then
      let hasNewProps := control ≥ 192
      let minHeaderSize := if hasNewProps then 6 else 5
      if offset + minHeaderSize > input.length then
        ParseResult.needBytes (minHeaderSize - (input.length - offset))
      else
        let uncompHigh := control &&& 31
        let uncompSize :=
          ((uncompHigh <<< 16) ||| (bufGet input (offset + 1) <<< 8) ||| bufGet input (offset + 2)) + 1
        let compSize := ((bufGet input (offset + 3) <<< 8) ||| bufGet input (offset + 4)) + 1
        let newProps : Option (Nat × Nat × Nat) :=
          if hasNewProps then
            let propsByte := bufGet input (offset + 5)
            some (propsByte % 9, propsByte / 9 % 5, propsByte / 9 / 5)
          else none
        ParseResult.success
          { ctype := ChunkType.lzma, headerSize := minHeaderSize
            dictReset := control ≥ 224, stateReset := control ≥ 160
            newProps := newProps, uncompSize := uncompSize, compSize := compSize }
    else ParseResult.badControl control

inductive CompleteChunkRes where
  | success (chunk : Lzma2Chunk) (totalSize : Nat)
  | needBytes (n : Nat)
  | badControl (c : Nat)
  deriving DecidableEq, Repr

/-- `hasCompleteChunk`: a header plus its full data payload. -/
def hasCompleteChunk (input : List Nat) (offset : Nat) : CompleteChunkRes :=
  match parseLzma2ChunkHeader input offset with
  | ParseResult.needBytes n => CompleteChunkRes.needBytes n
  | ParseResult.badControl c => CompleteChunkRes.badControl c
  | ParseResult.success chunk =>
    let dataSize := if chunk.ctype = ChunkType.uncompressed then chunk.uncompSize else chunk.compSize
    let totalSize := chunk.headerSize + dataSize
    if offset + totalSize > input.length then
      CompleteChunkRes.needBytes (totalSize - (input.length - offset))
    else CompleteChunkRes.success chunk totalSize

/-- `parseLzma2DictionarySize` (src types.ts): note the JavaScript signed
32-bit shift in `base << exp`. -/
def parseLzma2DictionarySize (prop : Nat) : Except DecodeErr Int :=
  if prop > 40 then Except.error DecodeErr.invalidDictProp
  else if prop = 40 then Except.ok 4294967295
  else Except.ok (jsShl32 (2 ||| (prop &&& 1)) ((prop >>> 1) + 11))

/-- The same dictionary-size formula evaluated in exact (unbounded) integer
arithmetic, as the specification states it. -/
def lzma2DictionarySizeSpec (prop : Nat) : Nat :=
  if prop = 40 then 4294967295 else (2 ||| (prop &&& 1)) * 2 ^ ((prop >>> 1) + 11)

/-! ## Synchronous LZMA2 decoding (src Lzma2Decoder.ts, Lzma2Decoder.decode) -/

def MAX_SAFE_SIZE : Nat := 268435456

/-- The chunk loop of `Lzma2Decoder.decode`.  `preallocated` selects the
source's pre-allocated output-buffer path, in which LZMA chunk data is
decoded in place from the full input at `dataOffset`; otherwise each chunk is
sliced to `compSize` bytes first.  In both paths the loop advances by
`headerSize + compSize`. -/
def lzma2DecodeChunks : Nat → LzmaDecoder → List Nat → Nat → List Nat → Bool →
    Except DecodeErr (List Nat)
  | 0, _, _, _, _, _ => Except.error DecodeErr.truncatedChunkHeader
  | fuel + 1, dec, input, offset, out, preallocated =>
    match parseLzma2ChunkHeader input offset with
    | ParseResult.needBytes _ => Except.error DecodeErr.truncatedChunkHeader
    | ParseResult.badControl c => Except.error (DecodeErr.badControlByte c)
    | ParseResult.success chunk =>
      if chunk.ctype = ChunkType.endOfStream then Except.ok out
      else
        let dataOffset := offset + chunk.headerSize
        let dec := if chunk.dictReset then lzmaResetDictionary dec else dec
        let dec := if chunk.stateReset then lzmaResetProbabilities dec else dec
        let dec :=
          match chunk.newProps with
          | some (lc, lp, pb) => (lzmaSetLcLpPb dec lc lp pb).2
          | none => dec
        let useSolid := (!chunk.stateReset) || (chunk.stateReset && !chunk.dictReset)
        if chunk.ctype = ChunkType.uncompressed then
          let uncompData := jsSlice input dataOffset (dataOffset + chunk.uncompSize)
          let dec := lzmaFeedUncompressed dec uncompData
          lzma2DecodeChunks fuel dec input (dataOffset + chunk.uncompSize) (out ++ uncompData)
            preallocated
        else
          let r :=
            if preallocated then lzmaDecodeToBuffer dec input dataOffset chunk.uncompSize useSolid
            else
              let chunkData := jsSlice input dataOffset (dataOffset + chunk.compSize)
              lzmaDecodeToBuffer dec chunkData 0 chunk.uncompSize useSolid
          match r with
          | Except.error e => Except.error e
          | Except.ok (dec, bytes) =>
            lzma2DecodeChunks fuel dec input (dataOffset + chunk.compSize) (out ++ bytes)
              preallocated

/-- `decodeLzma2` without an output sink: property-byte check, dictionary
size from the property, then the chunk loop (pre-allocated output path when
`0 < unpackSize ≤ MAX_SAFE_SIZE`). -/
def decodeLzma2 (input properties : List Nat) (unpackSize : Option Nat) :
    Except DecodeErr (List Nat) :=
  let tooBig := match unpackSize with
    | some s => decide (s > MAX_SAFE_SIZE)
    | none => false
  if tooBig then
    Except.error DecodeErr.cannotCombineBuffers
  else if properties.length < 1 then Except.error DecodeErr.requiresPropertiesByte
  else
    match parseLzma2DictionarySize (bufGet properties 0) with
    | Except.error e => Except.error e
    | Except.ok dictSize =>
      let dec := (lzmaSetDictionarySize (lzmaDecoderNew false) dictSize).2
      let preallocated := match unpackSize with
        | some s => decide (0 < s) && decide (s ≤ MAX_SAFE_SIZE)
        | none => false
      lzma2DecodeChunks (input.length + 1) dec input 0 [] preallocated

/-! ## Streaming LZMA2 decoding (src stream/transforms.ts, createLzma2Decoder)

Modelled for a single `push(input)` followed by `finish()`. -/

structure StreamSt where
  dec : LzmaDecoder
  propsSet : Bool
  currentLc : Option Nat
  currentLp : Option Nat
  currentPb : Option Nat

/-- One LZMA chunk of the streaming decoder: optional state reset on the
outer decoder, then a fresh sink-driven `LzmaDecoder` is created, given the
dictionary size and the remembered properties, and run over the sliced chunk
data; its flushed sink output is what the transform pushes. -/
def lzma2StreamLzmaChunk (st : StreamSt) (dictSize : Int) (input : List Nat) (offset : Nat)
    (chunk : Lzma2Chunk) : Except DecodeErr (StreamSt × List Nat) :=
  let st := if chunk.stateReset then { st with dec := lzmaResetProbabilities st.dec } else st
  let useSolid := (!chunk.stateReset) || (chunk.stateReset && !chunk.dictReset)
  let dataOffset := offset + chunk.headerSize
  let compData := jsSlice input dataOffset (dataOffset + chunk.compSize)
  let sd := (lzmaSetDictionarySize (lzmaDecoderNew true) dictSize).2
  let sd :=
    match st.currentLc, st.currentLp, st.currentPb with
    | some lc, some lp, some pb => (lzmaSetLcLpPb sd lc lp pb).2
    | _, _, _ => sd
  match lzmaDecodeWithSink sd compData 0 chunk.uncompSize useSolid with
  | Except.error e => Except.error e
  | Except.ok (sd, _) =>
    let sd := { sd with outWindow := owFlush sd.outWindow }
    Except.ok (st, sd.outWindow.sinkOut)

/-- The transform's chunk loop: stop on incomplete data (left pending) or on
the end marker (finished), reject an LZMA chunk that carries no properties
when none were ever set.  Returns the pushed output, the final offset and the
finished flag. -/
def lzma2StreamChunks : Nat → StreamSt → Int → List Nat → Nat → List Nat →
    Except DecodeErr (List Nat × Nat × Bool)
  | 0, _, _, _, offset, out => Except.ok (out, offset, false)
  | fuel + 1, st, dictSize, input, offset, out =>
    if offset < input.length then
      match hasCompleteChunk input offset with
      | CompleteChunkRes.needBytes _ => Except.ok (out, offset, false)
      | CompleteChunkRes.badControl c => Except.error (DecodeErr.badControlByte c)
      | CompleteChunkRes.success chunk totalSize =>
        if chunk.ctype = ChunkType.endOfStream then Except.ok (out, offset, true)
        else
          let st := if chunk.dictReset then { st with dec := lzmaResetDictionary st.dec } else st
          let dataOffset := offset + chunk.headerSize
          if chunk.ctype = ChunkType.uncompressed then
            let uncompData := jsSlice input dataOffset (dataOffset + chunk.uncompSize)
            let st := { st with dec := lzmaFeedUncompressed st.dec uncompData }
            lzma2StreamChunks fuel st dictSize input (offset + totalSize) (out ++ uncompData)
          else
            match chunk.newProps with
            | some (lc, lp, pb) =>
              let r := lzmaSetLcLpPb st.dec lc lp pb
              if !r.1 then Except.error DecodeErr.invalidLzmaProperties
              else
                let st := { st with
                  dec := r.2, propsSet := true,
                  currentLc := some lc, currentLp := some lp, currentPb := some pb }
                match lzma2StreamLzmaChunk st dictSize input offset chunk with
                | Except.error e => Except.error e
                | Except.ok (st, pushed) =>
                  lzma2StreamChunks fuel st dictSize input (offset + totalSize) (out ++ pushed)
            | none =>
              if !st.propsSet then Except.error DecodeErr.lzmaChunkWithoutProperties
              else
                match lzma2StreamLzmaChunk st dictSize input offset chunk with
                | Except.error e => Except.error e
                | Except.ok (st, pushed) =>
                  lzma2StreamChunks fuel st dictSize input (offset + totalSize) (out ++ pushed)
    else Except.ok (out, offset, false)

/-- `createLzma2Decoder` fed one complete input chunk and then flushed: an
incomplete trailing chunk (pending data without the end marker) is the
`Truncated LZMA2 stream` flush error. -/
def createLzma2DecoderRun (properties input : List Nat) : Except DecodeErr (List Nat) :=
  if properties.length < 1 then Except.error DecodeErr.requiresPropertiesByte
  else
    match parseLzma2DictionarySize (bufGet properties 0) with
    | Except.error e => Except.error e
    | Except.ok dictSize =>
      let dec := (lzmaSetDictionarySize (lzmaDecoderNew false) dictSize).2
      let st : StreamSt :=
        { dec := dec, propsSet := false, currentLc := none, currentLp := none, currentPb := none }
      match lzma2StreamChunks (input.length + 1) st dictSize input 0 [] with
      | Except.error e => Except.error e
      | Except.ok (out, offset, finished) =>
        if offset < input.length ∧ ¬finished then Except.error DecodeErr.truncatedLzma2Stream
        else Except.ok out

/-! ## Delta filter (src Delta.ts, decodeDelta)

The source copies the input and rewrites the copy in place; position `j` is
written before any later position is read, so reading the copy at `j` reads
the original input byte, which the recursion below consumes directly. -/

def decodeDeltaLoop : List Nat → Nat → List Nat → Nat → List Nat
  | [], _, _, _ => []
  | b :: rest, j, st, distance =>
    let idx := j % distance
    let v := (st.getD idx 0 + b) % 256
    v :: decodeDeltaLoop rest (j + 1) (st.set idx v) distance

/-- `decodeDelta`: distance is `properties[0] + 1`, defaulting to 1. -/
def decodeDelta (input properties : List Nat) : List Nat :=
  let distance := if 1 ≤ properties.length then bufGet properties 0 + 1 else 1
  decodeDeltaLoop input 0 (List.replicate distance 0) distance

/-! ## x86 BCJ filter (src Bcj.ts) -/

def MASK_TO_BIT_NUMBER : List Nat := [0, 1, 2, 2, 3]

def Test86MSByte (b : Nat) : Bool := b == 0 || b == 0xff

/-- `a - b` with JavaScript `>>> 0` semantics on the result. -/
def natSubU32 (a b : Nat) : Nat := (a + U32M - b % U32M) % U32M

/-- The mask-decay loop `for (i = 0; i < offset; i++) { prevMask &= 0x77; prevMask <<= 1 }`. -/
def x86ShiftMask : Nat → Nat → Nat
  | 0, prevMask => prevMask
  | k + 1, prevMask => x86ShiftMask k ((prevMask &&& 0x77) <<< 1)

/-- The false-positive-correction loop of `x86Code` (decoder direction):
recompute `dest = (src − sub) >>> 0` until the mask byte test breaks out.
Note `1 << (32 − i*8)` uses the JavaScript shift count modulo 32. -/
def x86ConvLoop : Nat → Nat → Nat → Nat → Nat
  | 0, _, src, sub => natSubU32 src sub
  | f + 1, prevMask, src, sub =>
    let dest := natSubU32 src sub
    if prevMask = 0 then dest
    else
      let i := MASK_TO_BIT_NUMBER.getD (prevMask >>> 1) 0
      let b := (dest >>> (24 - i * 8)) &&& 0xff
      if !Test86MSByte b then dest
      else x86ConvLoop f prevMask (dest ^^^ ((1 <<< ((32 - i * 8) % 32)) - 1)) sub

/-- The main scan of `x86Code`: state is the working buffer, the scan
position, and the `prevMask`/`prevPos` false-positive suppressors. -/
def x86CodeLoop : Nat → List Nat → Nat → Nat → Nat → Nat → Int →
    List Nat × Nat × Nat × Int
  | 0, buffer, _, bufferPos, _, prevMask, prevPos => (buffer, bufferPos, prevMask, prevPos)
  | f + 1, buffer, nowPos, bufferPos, limit, prevMask, prevPos =>
    if bufferPos ≤ limit then
      let opcode := bufGet buffer bufferPos
      if opcode ≠ 0xe8 ∧ opcode ≠ 0xe9 then
        x86CodeLoop f buffer nowPos (bufferPos + 1) limit prevMask prevPos
      else
        let offset : Int := (nowPos : Int) + bufferPos - prevPos
        let prevPos : Int := (nowPos : Int) + bufferPos
        let prevMask := if offset > 5 then 0 else x86ShiftMask offset.toNat prevMask
        let b := bufGet buffer (bufferPos + 4)
        if Test86MSByte b ∧ prevMask >>> 1 ≤ 4 ∧ prevMask >>> 1 ≠ 3 then
          let src := toU32 ((b <<< 24) ||| (bufGet buffer (bufferPos + 3) <<< 16) |||
            (bufGet buffer (bufferPos + 2) <<< 8) ||| bufGet buffer (bufferPos + 1))
          let dest := x86ConvLoop 4294967296 prevMask src (nowPos + bufferPos + 5)
          let hb := if (dest >>> 24) &&& 1 = 1 then 0xff else 0x00
          let buffer := buffer.set (bufferPos + 4) hb
          let buffer := buffer.set (bufferPos + 3) ((dest >>> 16) &&& 0xff)
          let buffer := buffer.set (bufferPos + 2) ((dest >>> 8) &&& 0xff)
          let buffer := buffer.set (bufferPos + 1) (dest &&& 0xff)
          x86CodeLoop f buffer nowPos (bufferPos + 5) limit 0 prevPos
        else
          let prevMask := prevMask ||| 1
          let prevMask := if Test86MSByte b then prevMask ||| 0x10 else prevMask
          x86CodeLoop f buffer nowPos (bufferPos + 1) limit prevMask prevPos
    else (buffer, bufferPos, prevMask, prevPos)

/-- `x86Code` (decoder direction): returns the rewritten buffer and the
number of processed bytes together with the final filter state. -/
def x86Code (prevMask : Nat) (prevPos : Int) (nowPos : Nat) (buffer : List Nat) (size : Nat) :
    List Nat × Nat × Nat × Int :=
  if size < 5 then (buffer, 0, prevMask, prevPos)
  else
    let prevPos := if (nowPos : Int) - prevPos > 5 then (nowPos : Int) - 5 else prevPos
    let limit := size - 5
    x86CodeLoop (size + 1) buffer nowPos 0 limit prevMask prevPos

/-- `decodeBcj`: run `x86Code` over a copy of the input with the initial state
`prevMask = 0`, `prevPos = 0xFFFFFFFB`. -/
def decodeBcj (input _properties : List Nat) : List Nat :=
  (x86Code 0 4294967291 0 input input.length).1

/-! ## ARM BCJ filter (src BcjArm.ts) -/

def armCodeLoop : Nat → List Nat → Nat → Nat → Nat → List Nat
  | 0, buffer, _, _, _ => buffer
  | f + 1, buffer, nowPos, i, size =>
    if i < size then
      let buffer :=
        if bufGet buffer (i + 3) = 0xeb then
          let src := (bufGet buffer (i + 2) <<< 16) ||| (bufGet buffer (i + 1) <<< 8) |||
            bufGet buffer i
          let src := src <<< 2
          let srcI : Int := toI32 (if src &&& 0x02000000 ≠ 0 then src ||| 0xfc000000 else src)
          let dest : Int := srcI - ((nowPos : Int) + i + 8)
          let destU : Nat := intToU32 dest / 4
          ((buffer.set (i + 2) ((destU >>> 16) &&& 0xff)).set (i + 1)
            ((destU >>> 8) &&& 0xff)).set i (destU &&& 0xff)
        else buffer
      armCodeLoop f buffer nowPos (i + 4) size
    else buffer

/-- `decodeBcjArm`: 4-byte aligned groups only. -/
def decodeBcjArm (input _properties : List Nat) : List Nat :=
  armCodeLoop (input.length / 4 + 1) input 0 0 (input.length - input.length % 4)

/-! ## ARM Thumb BCJ filter (src BcjArmt.ts) -/

def armtLoop : Nat → List Nat → Nat → List Nat
  | 0, buffer, _ => buffer
  | f + 1, buffer, pos =>
    if pos + 4 ≤ buffer.length then
      let w0 := bufGet buffer pos ||| (bufGet buffer (pos + 1) <<< 8)
      let w1 := bufGet buffer (pos + 2) ||| (bufGet buffer (pos + 3) <<< 8)
      if (w0 &&& 0xf800) = 0xf000 ∧ (w1 &&& 0xf800) = 0xf800 then
        let hi := w0 &&& 0x7ff
        let lo := w1 &&& 0x7ff
        let addr := (hi <<< 11) ||| lo
        let addrI : Int := toI32 (if addr &&& 0x200000 ≠ 0 then addr ||| 0xffc00000 else addr)
        let relAddr : Int := addrI - (pos >>> 1)
        let newHi := (intToU32 relAddr >>> 11) &&& 0x7ff
        let newLo := intToU32 relAddr &&& 0x7ff
        let buffer := (((buffer.set pos (newHi &&& 0xff)).set (pos + 1)
          (0xf0 ||| ((newHi >>> 8) &&& 0x07))).set (pos + 2) (newLo &&& 0xff)).set (pos + 3)
          (0xf8 ||| ((newLo >>> 8) &&& 0x07))
        armtLoop f buffer (pos + 4)
      else armtLoop f buffer (pos + 2)
    else buffer

def decodeBcjArmt (input _properties : List Nat) : List Nat :=
  armtLoop (input.length / 2 + 1) input 0

/-! ## ARM64 BCJ filter (src BcjArm64.ts) -/

def arm64Loop : Nat → List Nat → Nat → List Nat
  | 0, buffer, _ => buffer
  | f + 1, buffer, pos =>
    if pos + 4 ≤ buffer.length then
      let instr := bufGet buffer pos ||| (bufGet buffer (pos + 1) <<< 8) |||
        (bufGet buffer (pos + 2) <<< 16) ||| (bufGet buffer (pos + 3) <<< 24)
      let buffer :=
        if (instr &&& 0x7c000000) = 0x14000000 then
          let addr := instr &&& 0x03ffffff
          let addrI : Int := toI32 (if addr &&& 0x02000000 ≠ 0 then addr ||| 0xfc000000 else addr)
          let relAddr : Int := addrI - (pos >>> 2)
          let instr2 := (instr &&& 0xfc000000) ||| (intToU32 relAddr &&& 0x03ffffff)
          (((buffer.set pos (instr2 &&& 0xff)).set (pos + 1) ((instr2 >>> 8) &&& 0xff)).set
            (pos + 2) ((instr2 >>> 16) &&& 0xff)).set (pos + 3) ((instr2 >>> 24) &&& 0xff)
        else buffer
      arm64Loop f buffer (pos + 4)
    else buffer

def decodeBcjArm64 (input _properties : List Nat) : List Nat :=
  arm64Loop (input.length / 4 + 1) input 0

/-! ## PowerPC BCJ filter (src BcjPpc.ts) -/

def ppcLoop : Nat → List Nat → Nat → List Nat
  | 0, buffer, _ => buffer
  | f + 1, buffer, pos =>
    if pos + 4 ≤ buffer.length then
      let instr := (bufGet buffer pos <<< 24) ||| (bufGet buffer (pos + 1) <<< 16) |||
        (bufGet buffer (pos + 2) <<< 8) ||| bufGet buffer (pos + 3)
      let buffer :=
        if (instr &&& 0xfc000003) = 0x48000001 then
          let addr := instr &&& 0x03fffffc
          let addrI : Int := toI32 (if addr &&& 0x02000000 ≠ 0 then addr ||| 0xfc000000 else addr)
          let relAddr : Int := addrI - (pos : Int)
          let instr2 := (instr &&& 0xfc000003) ||| (intToU32 relAddr &&& 0x03fffffc)
          (((buffer.set pos ((instr2 >>> 24) &&& 0xff)).set (pos + 1)
            ((instr2 >>> 16) &&& 0xff)).set (pos + 2) ((instr2 >>> 8) &&& 0xff)).set (pos + 3)
            (instr2 &&& 0xff)
        else buffer
      ppcLoop f buffer (pos + 4)
    else buffer

def decodeBcjPpc (input _properties : List Nat) : List Nat :=
  ppcLoop (input.length / 4 + 1) input 0

/-! ## SPARC BCJ filter (src BcjSparc.ts) -/

def sparcLoop : Nat → List Nat → Nat → List Nat
  | 0, buffer, _ => buffer
  | f + 1, buffer, pos =>
    if pos + 4 ≤ buffer.length then
      let b0 := bufGet buffer pos
      let b1 := bufGet buffer (pos + 1)
      let buffer :=
        if (b0 = 0x40 ∧ (b1 &&& 0xc0) = 0x00) ∨ (b0 = 0x7f ∧ (b1 &&& 0xc0) = 0xc0) then
          let src := (b0 <<< 24) ||| (b1 <<< 16) ||| (bufGet buffer (pos + 2) <<< 8) |||
            bufGet buffer (pos + 3)
          let srcI : Int := toI32 (src <<< 2)
          let dest : Int := srcI - (pos : Int)
          let destU : Nat := intToU32 dest / 4
          let signBit := (destU >>> 22) &&& 1
          let signExtend := if signBit ≠ 0 then 0x3fc00000 else 0
          let dest2 := signExtend ||| (destU &&& 0x3fffff) ||| 0x40000000
          (((buffer.set pos ((dest2 >>> 24) &&& 0xff)).set (pos + 1)
            ((dest2 >>> 16) &&& 0xff)).set (pos + 2) ((dest2 >>> 8) &&& 0xff)).set (pos + 3)
            (dest2 &&& 0xff)
        else buffer
      sparcLoop f buffer (pos + 4)
    else buffer

def decodeBcjSparc (input _properties : List Nat) : List Nat :=
  sparcLoop (input.length / 4 + 1) input 0

/-! ## IA64 BCJ filter (src BcjIa64.ts) -/

def kBranchTable : List Nat :=
  [0, 0, 0, 0, 0, 0, 0, 0, 0, 0, 0, 0, 0, 0, 0, 0, 4, 4, 6, 6, 0, 0, 7, 7, 4, 4, 0, 0, 4, 4, 0, 0]

/-- JavaScript shift count: `ToUint32(n) & 31`, which for the negative counts
arising from `37 − 32 − bitOffset` gives 31 or 30. -/
def jsShiftCount (i : Int) : Nat := (i.emod 32).toNat

/-- The three-instruction-slot loop of an IA64 bundle; the bounds test breaks
out of the slot loop (the bundle loop then continues). -/
def ia64SlotRec : Nat → Nat → List Nat → Nat → Nat → List Nat
  | 0, _, buffer, _, _ => buffer
  | f + 1, slot, buffer, pos, mask =>
    if slot < 3 then
      if mask &&& (1 <<< slot) = 0 then ia64SlotRec f (slot + 1) buffer pos mask
      else
        let bitPos := 5 + slot * 41
        let bytePos := bitPos >>> 3
        let bitOffset := bitPos &&& 7
        if pos + bytePos + 6 > buffer.length then buffer
        else
          let i0 := bufGet buffer (pos + bytePos)
          let i1 := bufGet buffer (pos + bytePos + 1)
          let i2 := bufGet buffer (pos + bytePos + 2)
          let i3 := bufGet buffer (pos + bytePos + 3)
          let i4 := bufGet buffer (pos + bytePos + 4)
          let i5 := bufGet buffer (pos + bytePos + 5)
          let instrLo := (i0 >>> bitOffset) ||| (i1 <<< (8 - bitOffset)) |||
            (i2 <<< (16 - bitOffset)) ||| (i3 <<< (24 - bitOffset))
          let instrHi := (i4 >>> bitOffset) ||| (i5 <<< (8 - bitOffset))
          let opcode := (instrHi >>> jsShiftCount ((37 : Int) - 32 - bitOffset)) &&& 0xf
          if opcode ≠ 4 ∧ opcode ≠ 5 then ia64SlotRec f (slot + 1) buffer pos mask
          else
            let imm20 := (instrLo >>> 13) &&& 0xfffff
            let sign := (instrHi >>> 4) &&& 1
            let addr := imm20 ||| (sign <<< 20)
            let addrI : Int := toI32 (if sign ≠ 0 then addr ||| 0xffe00000 else addr)
            let relAddr : Int := addrI - (pos >>> 4)
            let newImm20 := intToU32 relAddr &&& 0xfffff
            let newSign := (intToU32 relAddr >>> 20) &&& 1
            let instrLo := (instrLo &&& (0xffffffff ^^^ (0xfffff <<< 13))) ||| (newImm20 <<< 13)
            let instrHi := (instrHi &&& (0xffffffff ^^^ (1 <<< 4))) ||| (newSign <<< 4)
            let buffer := buffer.set (pos + bytePos)
              ((bufGet buffer (pos + bytePos) &&& ((1 <<< bitOffset) - 1)) |||
                ((instrLo &&& 0xff) <<< bitOffset))
            let buffer := buffer.set (pos + bytePos + 1) ((instrLo >>> (8 - bitOffset)) &&& 0xff)
            let buffer := buffer.set (pos + bytePos + 2) ((instrLo >>> (16 - bitOffset)) &&& 0xff)
            let buffer := buffer.set (pos + bytePos + 3) ((instrLo >>> (24 - bitOffset)) &&& 0xff)
            let buffer := buffer.set (pos + bytePos + 4)
              (((instrLo >>> (32 - bitOffset)) &&& ((1 <<< bitOffset) - 1)) |||
                ((instrHi &&& 0xff) <<< bitOffset))
            let buffer := buffer.set (pos + bytePos + 5)
              ((bufGet buffer (pos + bytePos + 5) &&& (0xffffffff ^^^ ((1 <<< bitOffset) - 1))) |||
                ((instrHi >>> (8 - bitOffset)) &&& ((1 <<< bitOffset) - 1)))
            ia64SlotRec f (slot + 1) buffer pos mask
    else buffer

def ia64Loop : Nat → List Nat → Nat → List Nat
  | 0, buffer, _ => buffer
  | f + 1, buffer, pos =>
    if pos + 16 ≤ buffer.length then
      let template := bufGet buffer pos &&& 0x1f
      let mask := kBranchTable.getD template 0
      let buffer := ia64SlotRec 3 0 buffer pos mask
      ia64Loop f buffer (pos + 16)
    else buffer

def decodeBcjIa64 (input _properties : List Nat) : List Nat :=
  ia64Loop (input.length / 16 + 1) input 0

/-! ## XZ container (src xz/Decoder.ts) -/

def XZ_MAGIC : List Nat := [0xfd, 0x37, 0x7a, 0x58, 0x5a, 0x00]

def XZ_FOOTER_MAGIC : List Nat := [0x59, 0x5a]

def bytesMatch : List Nat → List Nat → Nat → Bool
  | _, [], _ => true
  | buf, e :: rest, offset => bufGet buf offset == e && bytesMatch buf rest (offset + 1)

/-- `bufferEquals`: compare bytes at `offset`, false when out of range. -/
def bufferEquals (buf : List Nat) (offset : Nat) (expected : List Nat) : Bool :=
  decide (offset + expected.length ≤ buf.length) && bytesMatch buf expected offset

/-- `decodeMultibyte`: little-endian base-128 with at most 4 bytes (a fifth
byte always raises `Multibyte integer too large`).  Fuel 5 covers every
reachable iteration. -/
def decodeMultibyteAux : Nat → List Nat → Nat → Nat → Nat → Except DecodeErr (Nat × Nat)
  | 0, _, _, _, _ => Except.error DecodeErr.multibyteTooLarge
  | fuel + 1, buf, offset, i, value =>
    if offset + i ≥ buf.length then Except.error DecodeErr.truncatedMultibyte
    else
      let byte := bufGet buf (offset + i)
      let value := value ||| ((byte &&& 0x7f) <<< (i * 7))
      let i := i + 1
      if i > 4 then Except.error DecodeErr.multibyteTooLarge
      else if byte &&& 0x80 ≠ 0 then decodeMultibyteAux fuel buf offset i value
      else Except.ok (value, i)

def decodeMultibyte (buf : List Nat) (offset : Nat) : Except DecodeErr (Nat × Nat) :=
  decodeMultibyteAux 5 buf offset 0 0

structure BlockInfo where
  filters : List (Nat × List Nat)
  lzma2Props : List Nat
  headerSize : Nat
  deriving DecidableEq, Repr

/-- The filter-descriptor loop of `parseBlockHeader`: LZMA2 (`0x21`) is
remembered as the payload filter, Delta (`0x03`) and the BCJ range
(`0x04..0x0a`) are collected in declaration order, anything else is
`Unsupported filter`. -/
def parseBlockFilters : Nat → List Nat → Nat → List (Nat × List Nat) → Option (List Nat) →
    Except DecodeErr (List (Nat × List Nat) × Option (List Nat) × Nat)
  | 0, _, offset, filters, lzma2Props => Except.ok (filters, lzma2Props, offset)
  | n + 1, input, offset, filters, lzma2Props =>
    match decodeMultibyte input offset with
    | Except.error e => Except.error e
    | Except.ok (filterId, br1) =>
      match decodeMultibyte input (offset + br1) with
      | Except.error e => Except.error e
      | Except.ok (propsSize, br2) =>
        let o := offset + br1 + br2
        let filterProps := jsSlice input o (o + propsSize)
        let o := o + propsSize
        if filterId = 0x21 then parseBlockFilters n input o filters (some filterProps)
        else if filterId = 0x03 ∨ (0x04 ≤ filterId ∧ filterId ≤ 0x0a) then
          parseBlockFilters n input o (filters ++ [(filterId, filterProps)]) lzma2Props
        else Except.error (DecodeErr.unsupportedFilter filterId)

/-- `parseBlockHeader`: size byte (zero is the index indicator, an error),
flags, optional compressed/uncompressed size integers, filter descriptors. -/
def parseBlockHeader (input : List Nat) (offset : Nat) : Except DecodeErr BlockInfo :=
  let raw := bufGet input offset
  if raw = 0 then Except.error DecodeErr.badBlockHeaderSize
  else
    let blockHeaderSize := (raw + 1) * 4
    let blockFlags := bufGet input (offset + 1)
    let numFilters := (blockFlags &&& 0x03) + 1
    let o := offset + 2
    let r1 : Except DecodeErr Nat :=
      if blockFlags &&& 0x40 ≠ 0 then
        match decodeMultibyte input o with
        | Except.error e => Except.error e
        | Except.ok (_, br) => Except.ok (o + br)
      else Except.ok o
    match r1 with
    | Except.error e => Except.error e
    | Except.ok o =>
      let r2 : Except DecodeErr Nat :=
        if blockFlags &&& 0x80 ≠ 0 then
          match decodeMultibyte input o with
          | Except.error e => Except.error e
          | Except.ok (_, br) => Except.ok (o + br)
        else Except.ok o
      match r2 with
      | Except.error e => Except.error e
      | Except.ok o =>
        match parseBlockFilters numFilters input o [] none with
        | Except.error e => Except.error e
        | Except.ok (filters, some lzma2Props, _) =>
          Except.ok { filters := filters, lzma2Props := lzma2Props, headerSize := blockHeaderSize }
        | Except.ok (_, none, _) => Except.error DecodeErr.noLzma2Filter

structure IndexRecord where
  compressedPos : Nat
  compressedDataSize : Int
  uncompressedSize : Nat
  deriving DecidableEq, Repr

/-- The record-reading loop of `parseIndex`. -/
def parseIndexRecords : Nat → List Nat → Nat → List (Nat × Nat) →
    Except DecodeErr (List (Nat × Nat) × Nat)
  | 0, _, offset, acc => Except.ok (acc, offset)
  | n + 1, input, offset, acc =>
    match decodeMultibyte input offset with
    | Except.error e => Except.error e
    | Except.ok (unpadded, br1) =>
      match decodeMultibyte input (offset + br1) with
      | Except.error e => Except.error e
      | Except.ok (uncompressed, br2) =>
        parseIndexRecords n input (offset + br1 + br2) (acc ++ [(unpadded, uncompressed)])

/-- The position walk of `parseIndex`: block headers start after the 12-byte
stream header; each block occupies `ceil(unpadded/4)*4` bytes.  The
compressed-data size `unpadded − headerSize − checkSize` may be negative for
malformed indices, hence `Int`. -/
def indexWalk : List (Nat × Nat) → List Nat → Nat → Nat → List IndexRecord
  | [], _, _, _ => []
  | (unpadded, uncompressed) :: rest, input, checkSize, currentPos =>
    let headerSizeRaw := bufGet input currentPos
    let headerSize := (headerSizeRaw + 1) * 4
    let cds : Int := (unpadded : Int) - headerSize - checkSize
    let paddedSize := (unpadded + 3) / 4 * 4
    { compressedPos := currentPos, compressedDataSize := cds, uncompressedSize := uncompressed } ::
      indexWalk rest input checkSize (currentPos + paddedSize)

/-- `parseIndex`: indicator byte, record count, records, then the position
walk.  (A read past the end of the buffer yields `undefined ≠ 0` in the
source, hence the explicit range test on the indicator.) -/
def parseIndex (input : List Nat) (indexStart checkSize : Nat) :
    Except DecodeErr (List IndexRecord) :=
  if indexStart ≥ input.length ∨ bufGet input indexStart ≠ 0 then
    Except.error DecodeErr.invalidIndexIndicator
  else
    match decodeMultibyte input (indexStart + 1) with
    | Except.error e => Except.error e
    | Except.ok (recordCount, br) =>
      match parseIndexRecords recordCount input (indexStart + 1 + br) [] with
      | Except.error e => Except.error e
      | Except.ok (recs, _) => Except.ok (indexWalk recs input checkSize 12)

/-- The check-size table of `decodeXZPure`: `{0:0, 1:4, 4:8, 10:32}[t] ?? 0` —
every unlisted check type falls back to 0 without an error. -/
def xzCheckSizes (checkType : Nat) : Nat :=
  if checkType = 0 then 0
  else if checkType = 1 then 4
  else if checkType = 4 then 8
  else if checkType = 10 then 32
  else 0

/-- `readUInt32LE` with the source's bounds test (null when out of range). -/
def readUInt32LE (buf : List Nat) (offset : Nat) : Option Nat :=
  if offset + 4 > buf.length then none
  else
    some (bufGet buf offset + bufGet buf (offset + 1) * 256 + bufGet buf (offset + 2) * 65536 +
      bufGet buf (offset + 3) * 16777216)

/-- The trailing-zero scan locating the stream footer. -/
def scanFooterEnd : Nat → List Nat → Nat → Nat
  | 0, _, footerEnd => footerEnd
  | f + 1, input, footerEnd =>
    if footerEnd > 12 ∧ bufGet input (footerEnd - 1) = 0 then scanFooterEnd f input (footerEnd - 1)
    else footerEnd

/-- The 4-byte realignment after the zero scan. -/
def alignFooterEnd : Nat → Nat → Nat
  | 0, footerEnd => footerEnd
  | f + 1, footerEnd =>
    if footerEnd % 4 ≠ 0 ∧ footerEnd > 12 then alignFooterEnd f (footerEnd + 1)
    else footerEnd

/-- `applyFilter`: dispatch on the filter id. -/
def applyFilter (data : List Nat) (id : Nat) (props : List Nat) : Except DecodeErr (List Nat) :=
  if id = 0x04 then Except.ok (decodeBcj data props)
  else if id = 0x07 then Except.ok (decodeBcjArm data props)
  else if id = 0x0a then Except.ok (decodeBcjArm64 data props)
  else if id = 0x08 then Except.ok (decodeBcjArmt data props)
  else if id = 0x05 then Except.ok (decodeBcjPpc data props)
  else if id = 0x09 then Except.ok (decodeBcjSparc data props)
  else if id = 0x06 then Except.ok (decodeBcjIa64 data props)
  else if id = 0x03 then Except.ok (decodeDelta data props)
  else Except.error (DecodeErr.unsupportedFilter id)

/-- Apply the preprocessing filters over LZMA2 output; the caller passes the
list already reversed (the source iterates the filter array backwards). -/
def applyFiltersRev : List (Nat × List Nat) → List Nat → Except DecodeErr (List Nat)
  | [], data => Except.ok data
  | (id, props) :: rest, data =>
    match applyFilter data id props with
    | Except.error e => Except.error e
    | Except.ok data2 => applyFiltersRev rest data2

/-- The per-block loop of `decodeXZPure`.  A negative `dataEnd` is clamped to
an empty slice here; the runs considered never reach it.  The caller passes
only the first record when the source's fast path applies. -/
def decodeXZBlocks : List IndexRecord → List Nat → Nat → List Nat → Except DecodeErr (List Nat)
  | [], _, _, out => Except.ok out
  | record :: rest, input, checkSize, out =>
    let recordStart := record.compressedPos
    match parseBlockHeader input recordStart with
    | Except.error e => Except.error e
    | Except.ok blockInfo =>
      let dataStart := recordStart + blockInfo.headerSize
      let dataEnd : Int := (dataStart : Int) + record.compressedDataSize
      let compressedData := jsSlice input dataStart (if dataEnd < 0 then 0 else dataEnd.toNat)
      match decodeLzma2 compressedData blockInfo.lzma2Props (some record.uncompressedSize) with
      | Except.error e => Except.error e
      | Except.ok blockOutput =>
        match applyFiltersRev blockInfo.filters.reverse blockOutput with
        | Except.error e => Except.error e
        | Except.ok blockOutput2 => decodeXZBlocks rest input checkSize (out ++ blockOutput2)

/-- `decodeXZPure`: magic test, check type from byte 7, backward scan for the
footer, backward size, index parse, then block decode.  An empty record list
yields the empty output; a single record, or several records totalling fewer
than 64 KiB of uncompressed bytes, takes the source's fast path, which
decodes only `blockRecords[0]`; otherwise every record is decoded and the
outputs concatenated. -/
def decodeXZPure (input : List Nat) : Except DecodeErr (List Nat) :=
  if input.length < 12 ∨ ¬bufferEquals input 0 XZ_MAGIC then Except.error DecodeErr.invalidMagic
  else
    let checkType := bufGet input 7 &&& 0x0f
    let checkSize := xzCheckSizes checkType
    let footerEnd := alignFooterEnd 3 (scanFooterEnd input.length input input.length)
    if ¬bufferEquals input (footerEnd - 2) XZ_FOOTER_MAGIC then Except.error DecodeErr.badFooter
    else
      match readUInt32LE input (footerEnd - 8) with
      | none => Except.error DecodeErr.invalidBackwardSize
      | some backwardSizeLE =>
        let backwardSize := (backwardSizeLE + 1) * 4
        let indexStartI : Int := (footerEnd : Int) - 12 - backwardSize
        if indexStartI < 0 then Except.error DecodeErr.invalidIndexIndicator
        else
          match parseIndex input indexStartI.toNat checkSize with
          | Except.error e => Except.error e
          | Except.ok blockRecords =>
            if blockRecords.length = 0 then Except.ok []
            else
              let totalUncompressedSize :=
                (blockRecords.map (fun record => record.uncompressedSize)).sum
              if blockRecords.length = 1 ∨ totalUncompressedSize < 65536 then
                decodeXZBlocks (blockRecords.take 1) input checkSize []
              else decodeXZBlocks blockRecords input checkSize []

/-! ## Theorems -/

theorem lor_shl_eq_add (x y k : Nat) (hy : y < 2 ^ k) : (x <<< k) ||| y = x * 2 ^ k + y := by
  rw [Nat.shiftLeft_eq, Nat.mul_comm x (2 ^ k), ← Nat.mul_add_lt_is_or hy x]

theorem bufGet_lt (input : List Nat) (hbytes : ∀ b ∈ input, b < 256) (i : Nat) :
    bufGet input i < 256 := by
  unfold bufGet
  by_cases h : i < input.length
  · rw [List.getD_eq_getElem input 0 h]
    exact hbytes _ (List.getElem_mem h)
  · rw [List.getD_eq_default]
    · omega
    · omega

/-- C5 (code bug): the LZMA2 dictionary-size property decoder computes
`(2 | (prop & 1)) << ((prop >> 1) + 11)` with the JavaScript signed 32-bit
shift, so `prop = 38` yields `-2147483648` and `prop = 39` yields
`-1073741824` instead of the positive values `2^31` and `3·2^30` that the
exact formula gives; the decoder's own `setDictionarySize` then rejects the
negative value.  Props 40 and 41 behave as specified. -/
theorem c5_dictionary_size_prop38_39 :
    parseLzma2DictionarySize 38 = Except.ok (-2147483648 : Int) ∧
    parseLzma2DictionarySize 39 = Except.ok (-1073741824 : Int) ∧
    lzma2DictionarySizeSpec 38 = 2 ^ 31 ∧
    lzma2DictionarySizeSpec 39 = 3 * 2 ^ 30 ∧
    ((-2147483648 : Int) < 0 ∧ (-1073741824 : Int) < 0) ∧
    (lzmaSetDictionarySize (lzmaDecoderNew false) (-2147483648)).1 = false ∧
    parseLzma2DictionarySize 40 = Except.ok 4294967295 ∧
    parseLzma2DictionarySize 41 = Except.error DecodeErr.invalidDictProp := by
  refine ⟨rfl, rfl, by decide, by decide, ⟨by decide, by decide⟩, rfl, rfl, rfl⟩

/-- C2: the LZMA2 chunk-header parser rejects a control byte `c` as a bad
control byte exactly for `3 ≤ c ≤ 0x7F`; `c = 0` parses as end of stream;
`c ∈ {1, 2}` parses as an uncompressed chunk of `(byte1 · 256 + byte2) + 1`
bytes with dictionary reset iff `c = 1`; `c ≥ 0x80` parses as an LZMA chunk
with `uncomp_size − 1` in bits 20:0 across `c[4:0]` and two bytes,
`comp_size − 1` in two further bytes, state reset iff `c ≥ 0xA0`, a new
properties byte iff `c ≥ 0xC0` and dictionary reset iff `c ≥ 0xE0`. -/
theorem c2_chunk_header_fields (input : List Nat) (offset : Nat)
    (hoff : offset < input.length)
    (hbytes : ∀ b ∈ input, b < 256) :
    (parseLzma2ChunkHeader input offset = ParseResult.badControl (bufGet input offset) ↔
      3 ≤ bufGet input offset ∧ bufGet input offset ≤ 127) ∧
    (bufGet input offset = 0 → parseLzma2ChunkHeader input offset =
      ParseResult.success ⟨ChunkType.endOfStream, 1, false, false, none, 0, 0⟩) ∧
    ((bufGet input offset = 1 ∨ bufGet input offset = 2) → offset + 3 ≤ input.length →
      ∃ ch, parseLzma2ChunkHeader input offset = ParseResult.success ch ∧
        ch.ctype = ChunkType.uncompressed ∧ ch.headerSize = 3 ∧
        ch.uncompSize = bufGet input (offset + 1) * 256 + bufGet input (offset + 2) + 1 ∧
        (ch.dictReset = true ↔ bufGet input offset = 1) ∧ ch.stateReset = false ∧
        ch.newProps = none ∧ ch.compSize = 0) ∧
    (128 ≤ bufGet input offset →
      offset + (if 192 ≤ bufGet input offset then 6 else 5) ≤ input.length →
      ∃ ch, parseLzma2ChunkHeader input offset = ParseResult.success ch ∧
        ch.ctype = ChunkType.lzma ∧
        ch.headerSize = (if 192 ≤ bufGet input offset then 6 else 5) ∧
        ch.uncompSize = bufGet input offset % 32 * 65536 + bufGet input (offset + 1) * 256 +
          bufGet input (offset + 2) + 1 ∧
        ch.compSize = bufGet input (offset + 3) * 256 + bufGet input (offset + 4) + 1 ∧
        (ch.stateReset = true ↔ 160 ≤ bufGet input offset) ∧
        (ch.newProps = none ↔ bufGet input offset < 192) ∧
        (ch.dictReset = true ↔ 224 ≤ bufGet input offset)) := by
  have hb : ∀ i, bufGet input i < 256 := bufGet_lt input hbytes
  have hno : ¬ offset ≥ input.length := by omega
  have h16g : ∀ i j : Nat, bufGet input i <<< 8 ||| bufGet input j =
      bufGet input i * 256 + bufGet input j := by
    intro i j
    have := lor_shl_eq_add (bufGet input i) (bufGet input j) 8
      (by have := hb j; norm_num; omega)
    simpa using this
  have h16 := h16g (offset + 1) (offset + 2)
  have h16' := h16g (offset + 3) (offset + 4)
  have h21 : ∀ uh : Nat, (uh <<< 16) ||| (bufGet input (offset + 1) <<< 8) |||
      bufGet input (offset + 2) =
      uh * 65536 + bufGet input (offset + 1) * 256 + bufGet input (offset + 2) := by
    intro uh
    have h1 : bufGet input (offset + 1) <<< 8 < 2 ^ 16 := by
      rw [Nat.shiftLeft_eq]
      have := hb (offset + 1)
      norm_num
      omega
    have e1 := lor_shl_eq_add uh (bufGet input (offset + 1) <<< 8) 16 h1
    rw [e1, Nat.shiftLeft_eq]
    have e2 : uh * 2 ^ 16 + bufGet input (offset + 1) * 2 ^ 8 =
        (uh * 256 + bufGet input (offset + 1)) <<< 8 := by
      rw [Nat.shiftLeft_eq]
      ring
    rw [e2, lor_shl_eq_add _ _ 8 (by have := hb (offset + 2); norm_num; omega)]
    ring
  have hand : bufGet input offset &&& 31 = bufGet input offset % 32 := by
    have := Nat.and_pow_two_sub_one_eq_mod (bufGet input offset) 5
    norm_num at this
    exact this
  refine ⟨?_, ?_, ?_, ?_⟩
  · -- bad control iff 3 ≤ c ≤ 127
    simp only [parseLzma2ChunkHeader, hno, if_false]
    split_ifs with h1 h2 h3 h4 h5 <;>
      simp_all <;> omega
  · intro h0
    simp only [parseLzma2ChunkHeader, hno, if_false, h0]
    simp
  · intro h12 hlen
    have hne0 : ¬ bufGet input offset = 0 := by omega
    have hnogt : ¬ offset + 3 > input.length := by omega
    have hparse : parseLzma2ChunkHeader input offset = ParseResult.success
        { ctype := ChunkType.uncompressed, headerSize := 3
          dictReset := bufGet input offset == 1, stateReset := false, newProps := none
          uncompSize := ((bufGet input (offset + 1) <<< 8) ||| bufGet input (offset + 2)) + 1
          compSize := 0 } := by
      simp only [parseLzma2ChunkHeader]
      rw [if_neg hno, if_neg hne0, if_pos h12, if_neg hnogt]
    refine ⟨_, hparse, rfl, rfl, ?_, ?_, rfl, rfl, rfl⟩
    · show ((bufGet input (offset + 1) <<< 8) ||| bufGet input (offset + 2)) + 1 = _
      rw [h16]
    · show (bufGet input offset == 1) = true ↔ bufGet input offset = 1
      simp
  · intro h128 hlen
    have hne0 : ¬ bufGet input offset = 0 := by omega
    have hne12 : ¬ (bufGet input offset = 1 ∨ bufGet input offset = 2) := by omega
    have h128' : bufGet input offset ≥ 128 := h128
    by_cases h192 : 192 ≤ bufGet input offset
    · have hnogt : ¬ offset + 6 > input.length := by
        rw [if_pos h192] at hlen; omega
      have hparse : parseLzma2ChunkHeader input offset = ParseResult.success
          { ctype := ChunkType.lzma, headerSize := 6
            dictReset := decide (bufGet input offset ≥ 224)
            stateReset := decide (bufGet input offset ≥ 160)
            newProps := some (bufGet input (offset + 5) % 9, bufGet input (offset + 5) / 9 % 5,
              bufGet input (offset + 5) / 9 / 5)
            uncompSize := (((bufGet input offset &&& 31) <<< 16) |||
              (bufGet input (offset + 1) <<< 8) ||| bufGet input (offset + 2)) + 1
            compSize := ((bufGet input (offset + 3) <<< 8) ||| bufGet input (offset + 4)) + 1 } := by
        simp only [parseLzma2ChunkHeader]
        rw [if_neg hno, if_neg hne0, if_neg hne12, if_pos h128']
        rw [if_pos h192, if_pos h192, if_neg hnogt]
      refine ⟨_, hparse, rfl, by rw [if_pos h192], ?_, ?_, ?_, ?_, ?_⟩
      · show (((bufGet input offset &&& 31) <<< 16) ||| (bufGet input (offset + 1) <<< 8) |||
          bufGet input (offset + 2)) + 1 = _
        rw [hand, h21]
      · show ((bufGet input (offset + 3) <<< 8) ||| bufGet input (offset + 4)) + 1 = _
        rw [h16']
      · show decide (bufGet input offset ≥ 160) = true ↔ 160 ≤ bufGet input offset
        simp
      · show some _ = none ↔ bufGet input offset < 192
        simp
        omega
      · show decide (bufGet input offset ≥ 224) = true ↔ 224 ≤ bufGet input offset
        simp
    · have hnogt : ¬ offset + 5 > input.length := by
        rw [if_neg h192] at hlen; omega
      have hparse : parseLzma2ChunkHeader input offset = ParseResult.success
          { ctype := ChunkType.lzma, headerSize := 5
            dictReset := decide (bufGet input offset ≥ 224)
            stateReset := decide (bufGet input offset ≥ 160)
            newProps := none
            uncompSize := (((bufGet input offset &&& 31) <<< 16) |||
              (bufGet input (offset + 1) <<< 8) ||| bufGet input (offset + 2)) + 1
            compSize := ((bufGet input (offset + 3) <<< 8) ||| bufGet input (offset + 4)) + 1 } := by
        simp only [parseLzma2ChunkHeader]
        rw [if_neg hno, if_neg hne0, if_neg hne12, if_pos h128']
        rw [if_neg h192, if_neg h192, if_neg hnogt]
      refine ⟨_, hparse, rfl, by rw [if_neg h192], ?_, ?_, ?_, ?_, ?_⟩
      · show (((bufGet input offset &&& 31) <<< 16) ||| (bufGet input (offset + 1) <<< 8) |||
          bufGet input (offset + 2)) + 1 = _
        rw [hand, h21]
      · show ((bufGet input (offset + 3) <<< 8) ||| bufGet input (offset + 4)) + 1 = _
        rw [h16']
      · show decide (bufGet input offset ≥ 160) = true ↔ 160 ≤ bufGet input offset
        simp
      · show (none : Option (Nat × Nat × Nat)) = none ↔ bufGet input offset < 192
        simp
        omega
      · show decide (bufGet input offset ≥ 224) = true ↔ 224 ≤ bufGet input offset
        simp

/-! ### C1 / C8: LZMA2 framing behaviour on concrete chunks -/

/-- An LZMA2 sequence with a single LZMA chunk (control `0xE0`: dictionary,
state and property reset) declaring `uncomp_size = 1` and `comp_size = 10`,
followed by ten data bytes (of which the decoder consumes only six) and the
end marker. -/
def c1input : List Nat := [224, 0, 0, 0, 9, 0, 0, 0, 0, 0, 0, 0, 0, 0, 0, 0, 0]

/-- The decoder state that `Lzma2Decoder.decode` prepares for the chunk of
`c1input`: dictionary size from property byte 0 (4096), dictionary reset,
state reset, new properties `lc = lp = pb = 0`. -/
def c1chunkDec : LzmaDecoder :=
  (lzmaSetLcLpPb (lzmaResetProbabilities (lzmaResetDictionary
    ((lzmaSetDictionarySize (lzmaDecoderNew false) 4096).2))) 0 0 0).2

/-- An LZMA2 sequence whose first chunk is an LZMA chunk with control `0x80`
(no reset, no properties byte), before any properties were ever set. -/
def c8input : List Nat := [128, 0, 0, 0, 9, 0, 0, 0, 0, 0, 0, 0, 0, 0, 0, 0]

theorem owCopyMatch_len (n : Nat) : ∀ (w : OutWindow) (dist : Int),
    (owCopyMatch n w dist).2.length = n := by
  induction n with
  | zero => intro w dist; rfl
  | succ n ih =>
    intro w dist
    simp only [owCopyMatch, List.length_cons]
    rw [ih]

theorem lzmaDecodeRepMatch_len_pos (d : LzmaDecoder) (posState : Nat) :
    1 ≤ (lzmaDecodeRepMatch d posState).2 := by
  unfold lzmaDecodeRepMatch
  dsimp only
  split
  · split <;> omega
  · omega

theorem lzmaDecodeNormalMatch_len_pos (d : LzmaDecoder) (posState : Nat) :
    1 ≤ (lzmaDecodeNormalMatch d posState).len := by
  unfold lzmaDecodeNormalMatch
  dsimp only
  split
  · split <;> (dsimp only; omega)
  · dsimp only
    omega

theorem lzmaDecodeMatchDistLen_len_pos (d : LzmaDecoder) (posState : Nat) :
    1 ≤ (lzmaDecodeMatchDistLen d posState).len := by
  unfold lzmaDecodeMatchDistLen
  dsimp only
  split
  · exact lzmaDecodeRepMatch_len_pos _ _
  · exact lzmaDecodeNormalMatch_len_pos _ _

theorem lzmaMatchStep_error (d : LzmaDecoder) (posState cumPos : Nat) (e : DecodeErr)
    (h : lzmaMatchStep d posState cumPos = Except.error e) : e = DecodeErr.invalidDistance := by
  unfold lzmaMatchStep at h
  dsimp only at h
  split at h
  · split at h <;> simp_all
  · split at h <;> simp_all

theorem lzmaMatchStep_bytes_pos (d : LzmaDecoder) (posState cumPos : Nat) (m : MatchRes)
    (h : lzmaMatchStep d posState cumPos = Except.ok m) (hm : m.marker = false) :
    1 ≤ m.bytes.length := by
  unfold lzmaMatchStep at h
  dsimp only at h
  split at h
  · split at h
    · simp only [Except.ok.injEq] at h
      subst h
      simp at hm
    · exact absurd h (by simp)
  · split at h
    · exact absurd h (by simp)
    · simp only [Except.ok.injEq] at h
      subst h
      simp only [owCopyMatch_len]
      exact lzmaDecodeMatchDistLen_len_pos d posState

theorem lzmaDecodeLoop_error (fuel : Nat) : ∀ (d : LzmaDecoder) (outPos outEnd cumPos : Nat)
    (out : List Nat) (e : DecodeErr),
    lzmaDecodeLoop fuel d outPos outEnd cumPos out = Except.error e →
    e = DecodeErr.invalidDistance := by
  induction fuel with
  | zero => intro d outPos outEnd cumPos out e h; exact absurd h (by simp [lzmaDecodeLoop])
  | succ fuel ih =>
    intro d outPos outEnd cumPos out e h
    unfold lzmaDecodeLoop at h
    dsimp only at h
    split at h
    · split at h
      · exact ih _ _ _ _ _ _ h
      · split at h
        · next e' heq =>
          simp only [Except.error.injEq] at h
          subst h
          exact lzmaMatchStep_error _ _ _ _ heq
        · next m heq =>
          split at h
          · exact absurd h (by simp)
          · exact ih _ _ _ _ _ _ h
    · exact absurd h (by simp)

theorem lzmaDecodeToBuffer_error (d : LzmaDecoder) (input : List Nat)
    (inputOffset outSize : Nat) (solid : Bool) (e : DecodeErr)
    (h : lzmaDecodeToBuffer d input inputOffset outSize solid = Except.error e) :
    e = DecodeErr.invalidDistance := by
  unfold lzmaDecodeToBuffer at h
  dsimp only at h
  split at h
  · next e' heq =>
    simp only [Except.error.injEq] at h
    subst h
    exact lzmaDecodeLoop_error _ _ _ _ _ _ _ heq
  · next r heq => exact absurd h (by simp)

/-- The byte-production guarantee of the symbol loop: a run that ends without
the end-of-stream marker and has fuel covering the remaining output has
produced at least `outEnd` bytes. -/
theorem lzmaDecodeLoop_fills (fuel : Nat) : ∀ (d : LzmaDecoder) (outPos outEnd cumPos : Nat)
    (out : List Nat) (r : LoopRes),
    lzmaDecodeLoop fuel d outPos outEnd cumPos out = Except.ok r →
    r.marker = false → outEnd ≤ fuel + outPos → outEnd ≤ r.outPos := by
  induction fuel with
  | zero =>
    intro d outPos outEnd cumPos out r h _ hf
    simp only [lzmaDecodeLoop, Except.ok.injEq] at h
    subst h
    simpa using hf
  | succ fuel ih =>
    intro d outPos outEnd cumPos out r h hm hf
    unfold lzmaDecodeLoop at h
    dsimp only at h
    split at h
    · next hlt =>
      split at h
      · exact ih _ _ _ _ _ _ h hm (by omega)
      · split at h
        · exact absurd h (by simp)
        · next m heq =>
          split at h
          · next hmk =>
            simp only [Except.ok.injEq] at h
            subst h
            simp at hm
          · next hmk =>
            have hb := lzmaMatchStep_bytes_pos _ _ _ _ heq (by
              cases hval : m.marker
              · rfl
              · exact absurd hval hmk)
            exact ih _ _ _ _ _ _ h hm (by omega)
    · next hlt =>
      simp only [Except.ok.injEq] at h
      subst h
      simpa using Nat.le_of_not_lt hlt

/-- C1 (counterexample): the chunk of `c1input` declares `comp_size = 10`,
the range decoder consumes only 6 bytes (position 12 from data offset 6)
while producing exactly the one declared output byte, and the synchronous
LZMA2 decoder succeeds rather than raising an error. -/
theorem c1_counterexample :
    parseLzma2ChunkHeader c1input 0 = ParseResult.success
      { ctype := ChunkType.lzma, headerSize := 6, dictReset := true, stateReset := true
        newProps := some (0, 0, 0), uncompSize := 1, compSize := 10 } ∧
    Except.map (fun p => (p.2, p.1.rangeDecoder.pos))
      (lzmaDecodeToBuffer c1chunkDec c1input 6 1 false) = Except.ok ([0], 12) ∧
    12 - 6 ≠ 10 ∧
    decodeLzma2 c1input [0] (some 1) = Except.ok [0] :=
  ⟨rfl, rfl, by decide, rfl⟩

/-- C1 (amended): the core produces the declared number of output bytes (at
least `outSize` whenever the run ends without the end marker), but the
number of input bytes the range decoder consumed is never compared with
`comp_size`: the framer always advances by `comp_size`, and a mismatch (here
6 consumed versus 10 declared) raises no error. -/
theorem c1_uncomp_exact_comp_unchecked :
    (∀ (fuel : Nat) (d : LzmaDecoder) (outPos outEnd cumPos : Nat) (out : List Nat)
      (r : LoopRes),
      lzmaDecodeLoop fuel d outPos outEnd cumPos out = Except.ok r →
      r.marker = false → outEnd ≤ fuel + outPos → outEnd ≤ r.outPos) ∧
    Except.map (fun p => (p.2.length, p.1.rangeDecoder.pos - 6))
      (lzmaDecodeToBuffer c1chunkDec c1input 6 1 false) = Except.ok (1, 6) ∧
    decodeLzma2 c1input [0] (some 1) = Except.ok [0] ∧
    (6 : Nat) ≠ 10 :=
  ⟨fun fuel => lzmaDecodeLoop_fills fuel, rfl, rfl, by decide⟩

/-- Witness for the universal part of the amended C1 theorem at a concrete
zero-fuel run. -/
theorem c1_uncomp_exact_comp_unchecked_witness :
    lzmaDecodeLoop 0 (lzmaDecoderNew false) 3 2 0 [] = Except.ok
      { dec := lzmaDecoderNew false, outPos := 3, cumPos := 0, out := [], marker := false } ∧
    (2 : Nat) ≤ 3 :=
  ⟨rfl, (c1_uncomp_exact_comp_unchecked.1 0 (lzmaDecoderNew false) 3 2 0 []
    { dec := lzmaDecoderNew false, outPos := 3, cumPos := 0, out := [], marker := false }
    rfl rfl (by decide))⟩

/-! ### C8 -/

theorem lzma2DecodeChunks_error (fuel : Nat) : ∀ (dec : LzmaDecoder) (input : List Nat)
    (offset : Nat) (out : List Nat) (preallocated : Bool) (e : DecodeErr),
    lzma2DecodeChunks fuel dec input offset out preallocated = Except.error e →
    e = DecodeErr.truncatedChunkHeader ∨ (∃ c, e = DecodeErr.badControlByte c) ∨
      e = DecodeErr.invalidDistance := by
  induction fuel with
  | zero =>
    intro dec input offset out preallocated e h
    simp only [lzma2DecodeChunks, Except.error.injEq] at h
    exact Or.inl h.symm
  | succ fuel ih =>
    intro dec input offset out preallocated e h
    unfold lzma2DecodeChunks at h
    dsimp only at h
    split at h
    · simp only [Except.error.injEq] at h
      exact Or.inl h.symm
    · simp only [Except.error.injEq] at h
      exact Or.inr (Or.inl ⟨_, h.symm⟩)
    · split at h
      · exact absurd h (by simp)
      · split at h
        · exact ih _ _ _ _ _ _ h
        · split at h
          · next e' heq =>
            simp only [Except.error.injEq] at h
            subst h
            split at heq
            · exact Or.inr (Or.inr (lzmaDecodeToBuffer_error _ _ _ _ _ _ heq))
            · exact Or.inr (Or.inr (lzmaDecodeToBuffer_error _ _ _ _ _ _ heq))
          · exact ih _ _ _ _ _ _ h

/-- The synchronous LZMA2 decode entry point can only fail with a truncated
chunk header, a bad control byte, an invalid distance, an oversized output
request, a missing properties argument, or a bad dictionary property — never
with a missing-LZMA-properties error. -/
theorem decodeLzma2_no_missing_props (input properties : List Nat) (unpackSize : Option Nat)
    (e : DecodeErr) (h : decodeLzma2 input properties unpackSize = Except.error e) :
    e ≠ DecodeErr.lzmaChunkWithoutProperties := by
  unfold decodeLzma2 at h
  dsimp only at h
  split at h
  · simp only [Except.error.injEq] at h
    subst h
    simp
  · split at h
    · simp only [Except.error.injEq] at h
      subst h
      simp
    · split at h
      · next e' heq =>
        simp only [Except.error.injEq] at h
        subst h
        unfold parseLzma2DictionarySize at heq
        split at heq
        · simp only [Except.error.injEq] at heq
          subst heq
          simp
        · split at heq
          · exact absurd heq (by simp)
          · exact absurd heq (by simp)
      · rcases lzma2DecodeChunks_error _ _ _ _ _ _ _ h with h1 | ⟨c, h1⟩ | h1 <;>
          (subst h1; simp)

/-- C8 (counterexample): an LZMA chunk with control `0x80` arriving before
any properties-carrying chunk does NOT make the synchronous `decodeLzma2`
fail; it decodes the chunk with the default `lc = lp = pb = 0` tables and
produces output. -/
theorem c8_counterexample :
    decodeLzma2 c8input [0] (some 1) = Except.ok [0] ∧
    parseLzma2ChunkHeader c8input 0 = ParseResult.success
      { ctype := ChunkType.lzma, headerSize := 5, dictReset := false, stateReset := false
        newProps := none, uncompSize := 1, compSize := 10 } :=
  ⟨rfl, rfl⟩

/-- C8 (amended): only the streaming Transform entry point rejects an LZMA
chunk that precedes any properties (with the `LZMA chunk without properties`
error); the synchronous entry point performs no such check — it decodes the
chunk with the default properties and produces its output, and no run of it
can ever return the missing-properties error. -/
theorem c8_missing_props_only_streaming :
    createLzma2DecoderRun [0] c8input = Except.error DecodeErr.lzmaChunkWithoutProperties ∧
    decodeLzma2 c8input [0] (some 1) = Except.ok [0] ∧
    (∀ (input properties : List Nat) (unpackSize : Option Nat) (e : DecodeErr),
      decodeLzma2 input properties unpackSize = Except.error e →
      e ≠ DecodeErr.lzmaChunkWithoutProperties) :=
  ⟨rfl, rfl, decodeLzma2_no_missing_props⟩

/-- Witness for the universal part of the amended C8 theorem: a bad-control
failure is not the missing-properties error. -/
theorem c8_missing_props_only_streaming_witness :
    decodeLzma2 [3] [0] none = Except.error (DecodeErr.badControlByte 3) ∧
    DecodeErr.badControlByte 3 ≠ DecodeErr.lzmaChunkWithoutProperties :=
  ⟨rfl, c8_missing_props_only_streaming.2.2 [3] [0] none (DecodeErr.badControlByte 3) rfl⟩


/-! ### C2 witness -/

/-- Witness for C2 at the one-byte input `[0x50]`: the control byte `0x50`
lies in the reserved range `3..0x7F` and is reported as a bad control byte. -/
theorem c2_chunk_header_fields_witness :
    parseLzma2ChunkHeader [80] 0 = ParseResult.badControl (bufGet [80] 0) :=
  ((c2_chunk_header_fields [80] 0 (by decide) (by decide)).1).mpr (by decide)

/-! ### C9: Delta filter against its closed form -/

/-- Spec-modelled prefix sum: the sum of the input bytes at indices `i < j`
congruent to `idx` modulo the distance. -/
def deltaPrefixSum (B : List Nat) (d idx j : Nat) : Nat :=
  (((List.range j).filter (fun i => i % d = idx)).map (fun i => bufGet B i)).sum

/-- Spec-modelled output byte of the Delta filter at index `j`: the sum
modulo 256 of all input bytes at indices `i ≤ j` congruent to `j` modulo
the distance. -/
def deltaSpecByte (B : List Nat) (d j : Nat) : Nat :=
  deltaPrefixSum B d (j % d) (j + 1) % 256

theorem deltaPrefixSum_succ (B : List Nat) (d idx j : Nat) :
    deltaPrefixSum B d idx (j + 1) =
      deltaPrefixSum B d idx j + (if j % d = idx then bufGet B j else 0) := by
  by_cases h : j % d = idx <;>
    simp [deltaPrefixSum, List.range_succ, List.filter_append, h]

theorem getD_replicate_zero (d idx : Nat) : (List.replicate d (0 : Nat)).getD idx 0 = 0 := by
  induction d generalizing idx with
  | zero => rfl
  | succ d ih =>
    cases idx with
    | zero => rfl
    | succ i => simpa using ih i

theorem getD_set_self (l : List Nat) (i v : Nat) (h : i < l.length) :
    (l.set i v).getD i 0 = v := by
  rw [List.getD_eq_getElem _ _ (by simpa using h)]
  simp

theorem getD_set_ne (l : List Nat) (i j v : Nat) (h : i ≠ j) :
    (l.set i v).getD j 0 = l.getD j 0 := by
  by_cases hj : j < l.length
  · rw [List.getD_eq_getElem _ _ (by simpa using hj), List.getD_eq_getElem _ _ hj]
    simp [List.getElem_set, h]
  · rw [List.getD_eq_default _ _ (by simpa using Nat.le_of_not_lt hj),
      List.getD_eq_default _ _ (Nat.le_of_not_lt hj)]

theorem decodeDeltaLoop_len (rest : List Nat) : ∀ (j : Nat) (st : List Nat) (d : Nat),
    (decodeDeltaLoop rest j st d).length = rest.length := by
  induction rest with
  | nil => intro j st d; rfl
  | cons b rest ih =>
    intro j st d
    unfold decodeDeltaLoop
    dsimp only
    rw [List.length_cons, List.length_cons, ih]

/-- The state invariant of the Delta loop: each state slot holds the running
sum modulo 256 of the bytes already processed in its congruence class, and
each produced byte is the spec's closed form. -/
theorem decodeDeltaLoop_spec (B : List Nat) (d : Nat) (hd : 0 < d) :
    ∀ (rest : List Nat) (j : Nat) (st : List Nat),
      st.length = d →
      (∀ k, bufGet rest k = bufGet B (j + k)) →
      (∀ idx, idx < d → st.getD idx 0 = deltaPrefixSum B d idx j % 256) →
      ∀ t, t < rest.length →
        bufGet (decodeDeltaLoop rest j st d) t = deltaSpecByte B d (j + t) := by
  intro rest
  induction rest with
  | nil => intro j st _ _ _ t ht; simp at ht
  | cons b rest ih =>
    intro j st hlen hrest hinv t ht
    have hb : b = bufGet B j := by
      have := hrest 0
      simpa [bufGet] using this
    unfold decodeDeltaLoop
    dsimp only
    cases t with
    | zero =>
      simp only [bufGet, List.getD_cons_zero]
      rw [hinv (j % d) (Nat.mod_lt _ hd), hb, Nat.mod_add_mod]
      unfold deltaSpecByte
      rw [Nat.add_zero, deltaPrefixSum_succ, if_pos rfl]
    | succ t =>
      simp only [bufGet, List.getD_cons_succ]
      have hres : j + (t + 1) = (j + 1) + t := by omega
      rw [hres]
      apply ih (j + 1)
      · simpa using hlen
      · intro k
        have h1 := hrest (k + 1)
        have h2 : j + (k + 1) = j + 1 + k := by omega
        rw [h2] at h1
        simpa [bufGet] using h1
      · intro idx hidx
        by_cases hix : idx = j % d
        · subst hix
          rw [getD_set_self _ _ _ (by rw [hlen]; exact Nat.mod_lt _ hd)]
          rw [hinv (j % d) (Nat.mod_lt _ hd), hb, Nat.mod_add_mod]
          rw [deltaPrefixSum_succ, if_pos rfl]
        · rw [getD_set_ne _ _ _ _ (fun h => hix h.symm)]
          rw [hinv idx hidx, deltaPrefixSum_succ, if_neg (fun h => hix h.symm)]
          simp
      · simpa using ht

/-- C9: `decodeDelta` preserves the input length; its distance parameter is
`properties[0] + 1` (1 when absent), which is at least 1 and, for byte-valued
properties, at most 256; and every output byte equals the spec's closed
form: the sum modulo 256 of all input bytes at indices `i ≤ j` congruent to
`j` modulo the distance. -/
theorem c9_delta_matches_spec (B properties : List Nat) :
    (decodeDelta B properties).length = B.length ∧
    1 ≤ (if 1 ≤ properties.length then bufGet properties 0 + 1 else 1) ∧
    ((∀ p ∈ properties, p < 256) →
      (if 1 ≤ properties.length then bufGet properties 0 + 1 else 1) ≤ 256) ∧
    ∀ j, j < B.length →
      bufGet (decodeDelta B properties) j =
        deltaSpecByte B (if 1 ≤ properties.length then bufGet properties 0 + 1 else 1) j := by
  set d := if 1 ≤ properties.length then bufGet properties 0 + 1 else 1 with hdef
  have hd : 0 < d := by rw [hdef]; split <;> omega
  refine ⟨?_, hd, ?_, ?_⟩
  · unfold decodeDelta
    dsimp only
    rw [← hdef]
    exact decodeDeltaLoop_len B 0 _ d
  · intro hbytes
    rw [hdef]
    split
    · have := bufGet_lt properties hbytes 0
      omega
    · omega
  · intro j hj
    unfold decodeDelta
    dsimp only
    rw [← hdef]
    have := decodeDeltaLoop_spec B d hd B 0 (List.replicate d 0) (by simp)
      (fun k => by simp) (fun idx _ => by simp [getD_replicate_zero, deltaPrefixSum]) j hj
    simpa using this

/-- Witness for C9 at `B = [1, 2, 3, 4]`, one-byte property `[1]`
(distance 2): output byte 2 is `(1 + 3) mod 256` per the closed form, and
the distance stays within `[1, 256]`. -/
theorem c9_delta_matches_spec_witness :
    bufGet (decodeDelta [1, 2, 3, 4] [1]) 2 =
      deltaSpecByte [1, 2, 3, 4]
        (if 1 ≤ ([1] : List Nat).length then bufGet [1] 0 + 1 else 1) 2 ∧
    (if 1 ≤ ([1] : List Nat).length then bufGet [1] 0 + 1 else 1) ≤ 256 :=
  ⟨(c9_delta_matches_spec [1, 2, 3, 4] [1]).2.2.2 2 (by decide),
   (c9_delta_matches_spec [1, 2, 3, 4] [1]).2.2.1 (by decide)⟩

/-! ### C10: every one-shot filter decoder preserves the buffer length -/

theorem x86CodeLoop_len (f : Nat) : ∀ (buffer : List Nat) (nowPos bufferPos limit prevMask : Nat)
    (prevPos : Int),
    (x86CodeLoop f buffer nowPos bufferPos limit prevMask prevPos).1.length = buffer.length := by
  induction f with
  | zero => intro buffer nowPos bufferPos limit prevMask prevPos; rfl
  | succ f ih =>
    intro buffer nowPos bufferPos limit prevMask prevPos
    unfold x86CodeLoop
    dsimp only
    repeat' split
    all_goals first
      | rfl
      | (rw [ih]; simp)
      | exact ih ..

theorem x86Code_len (prevMask : Nat) (prevPos : Int) (nowPos : Nat) (buffer : List Nat)
    (size : Nat) :
    (x86Code prevMask prevPos nowPos buffer size).1.length = buffer.length := by
  unfold x86Code
  dsimp only
  split
  · rfl
  · exact x86CodeLoop_len ..

theorem armCodeLoop_len (f : Nat) : ∀ (buffer : List Nat) (nowPos i size : Nat),
    (armCodeLoop f buffer nowPos i size).length = buffer.length := by
  induction f with
  | zero => intro buffer nowPos i size; rfl
  | succ f ih =>
    intro buffer nowPos i size
    unfold armCodeLoop
    dsimp only
    split
    · split
      · rw [ih]
        simp
      · exact ih ..
    · rfl

theorem armtLoop_len (f : Nat) : ∀ (buffer : List Nat) (pos : Nat),
    (armtLoop f buffer pos).length = buffer.length := by
  induction f with
  | zero => intro buffer pos; rfl
  | succ f ih =>
    intro buffer pos
    unfold armtLoop
    dsimp only
    split
    · split
      · rw [ih]
        simp
      · exact ih ..
    · rfl

theorem arm64Loop_len (f : Nat) : ∀ (buffer : List Nat) (pos : Nat),
    (arm64Loop f buffer pos).length = buffer.length := by
  induction f with
  | zero => intro buffer pos; rfl
  | succ f ih =>
    intro buffer pos
    unfold arm64Loop
    dsimp only
    split
    · split
      · rw [ih]
        simp
      · exact ih ..
    · rfl

theorem ppcLoop_len (f : Nat) : ∀ (buffer : List Nat) (pos : Nat),
    (ppcLoop f buffer pos).length = buffer.length := by
  induction f with
  | zero => intro buffer pos; rfl
  | succ f ih =>
    intro buffer pos
    unfold ppcLoop
    dsimp only
    split
    · split
      · rw [ih]
        simp
      · exact ih ..
    · rfl

theorem sparcLoop_len (f : Nat) : ∀ (buffer : List Nat) (pos : Nat),
    (sparcLoop f buffer pos).length = buffer.length := by
  induction f with
  | zero => intro buffer pos; rfl
  | succ f ih =>
    intro buffer pos
    unfold sparcLoop
    dsimp only
    split
    · split
      · rw [ih]
        simp
      · exact ih ..
    · rfl

theorem ia64SlotRec_len (f : Nat) : ∀ (slot : Nat) (buffer : List Nat) (pos mask : Nat),
    (ia64SlotRec f slot buffer pos mask).length = buffer.length := by
  induction f with
  | zero => intro slot buffer pos mask; rfl
  | succ f ih =>
    intro slot buffer pos mask
    unfold ia64SlotRec
    dsimp only
    split
    · split
      · exact ih ..
      · split
        · rfl
        · split
          · exact ih ..
          · rw [ih]
            simp
    · rfl

theorem ia64Loop_len (f : Nat) : ∀ (buffer : List Nat) (pos : Nat),
    (ia64Loop f buffer pos).length = buffer.length := by
  induction f with
  | zero => intro buffer pos; rfl
  | succ f ih =>
    intro buffer pos
    unfold ia64Loop
    dsimp only
    split
    · rw [ih, ia64SlotRec_len]
    · rfl

/-- C10: each one-shot filter decoder (x86, ARM, ARM Thumb, ARM64, PowerPC,
SPARC, IA64 BCJ and Delta) returns a buffer of exactly the input's length;
the source functions rewrite a fresh `bufferFrom` copy in place, never the
caller's buffer. -/
theorem c10_filters_preserve_length (input properties : List Nat) :
    (decodeBcj input properties).length = input.length ∧
    (decodeBcjArm input properties).length = input.length ∧
    (decodeBcjArmt input properties).length = input.length ∧
    (decodeBcjArm64 input properties).length = input.length ∧
    (decodeBcjPpc input properties).length = input.length ∧
    (decodeBcjSparc input properties).length = input.length ∧
    (decodeBcjIa64 input properties).length = input.length ∧
    (decodeDelta input properties).length = input.length :=
  ⟨x86Code_len .., armCodeLoop_len .., armtLoop_len .., arm64Loop_len ..,
   ppcLoop_len .., sparcLoop_len .., ia64Loop_len .., decodeDeltaLoop_len ..⟩

/-! ### C6 / C7: whole-stream behaviour on concrete XZ inputs -/

/-- A complete one-block XZ stream: CRC32 check type, one LZMA2 uncompressed
chunk holding the byte `0x41`, real header/block/index CRC32 values, index
with one record and a valid footer. -/
def c6s1 : List Nat :=
  [253, 55, 122, 88, 90, 0, 0, 1, 105, 34, 222, 54, 2, 0, 33, 1, 0, 0, 0, 0,
   55, 39, 151, 214, 1, 0, 0, 65, 0, 0, 0, 0, 139, 158, 217, 211, 0, 1, 21, 1,
   169, 99, 52, 96, 144, 66, 153, 13, 1, 0, 0, 0, 0, 1, 89, 90]

/-- A complete empty XZ stream (no blocks), CRC32 check type. -/
def c6s2 : List Nat :=
  [253, 55, 122, 88, 90, 0, 0, 1, 105, 34, 222, 54, 0, 0, 0, 0, 28, 223, 68,
   33, 144, 66, 153, 13, 1, 0, 0, 0, 0, 1, 89, 90]

/-- The empty XZ stream of `c6s2` with its check type replaced by the
reserved value 2 (and the two affected CRC32 fields recomputed). -/
def c7s3 : List Nat :=
  [253, 55, 122, 88, 90, 0, 0, 2, 211, 115, 215, 175, 0, 0, 0, 0, 28, 223, 68,
   33, 42, 19, 144, 148, 1, 0, 0, 0, 0, 2, 89, 90]

/-- C6 (counterexample): `c6s1` alone decodes to `[0x41]` and `c6s2` alone
to `[]`, but their padded concatenation decodes to `[]`, not to the
concatenation `[0x41] ++ []` the claim requires. -/
theorem c6_counterexample :
    decodeXZPure c6s1 = Except.ok [65] ∧
    decodeXZPure c6s2 = Except.ok [] ∧
    decodeXZPure (c6s1 ++ [0, 0, 0, 0] ++ c6s2) = Except.ok [] ∧
    ([] : List Nat) ≠ [65] ++ [] :=
  ⟨rfl, rfl, rfl, by decide⟩

/-- C6 (amended): aligned zero padding after the footer is skipped, but a
second concatenated stream replaces the first instead of extending it: the
decoder scans backward for the last footer and walks only that stream's
index, so the concatenation decodes exactly as the trailing stream does. -/
theorem c6_last_stream_wins :
    decodeXZPure (c6s1 ++ [0, 0, 0, 0]) = Except.ok [65] ∧
    decodeXZPure (c6s1 ++ c6s2) = decodeXZPure c6s2 ∧
    decodeXZPure (c6s1 ++ [0, 0, 0, 0] ++ c6s2) = decodeXZPure c6s2 :=
  ⟨rfl, rfl, rfl⟩

/-- C7 (counterexample): the stream `c7s3` declares the reserved check type
2 in its header, yet the decoder accepts it and returns successfully; no
check-type validation error is raised. -/
theorem c7_counterexample :
    bufGet c7s3 7 &&& 15 = 2 ∧ decodeXZPure c7s3 = Except.ok [] :=
  ⟨rfl, rfl⟩

/-- C7 (amended): the check-size table maps the known types 0, 1, 4 and 10
to 0, 4, 8 and 32 bytes, and every other check type falls back to a 0-byte
check field via the source's `?? 0` instead of an unsupported-check error;
the concrete stream with reserved check type 2 therefore decodes
successfully. -/
theorem c7_unknown_check_skipped :
    xzCheckSizes 0 = 0 ∧ xzCheckSizes 1 = 4 ∧ xzCheckSizes 4 = 8 ∧
    xzCheckSizes 10 = 32 ∧
    (∀ t, t ≠ 0 → t ≠ 1 → t ≠ 4 → t ≠ 10 → xzCheckSizes t = 0) ∧
    decodeXZPure c7s3 = Except.ok [] := by
  refine ⟨rfl, rfl, rfl, rfl, ?_, rfl⟩
  intro t h0 h1 h4 h10
  simp [xzCheckSizes, h0, h1, h4, h10]

/-- Witness for C7's amended theorem at the reserved check type 2: its check
size falls back to 0. -/
theorem c7_unknown_check_skipped_witness : xzCheckSizes 2 = 0 :=
  c7_unknown_check_skipped.2.2.2.2.1 2 (by decide) (by decide) (by decide) (by decide)


/-! ### C4: the InvalidDistance guard -/

theorem rcDecodeBit_bit_le (rc : RangeDecoder) (p : Nat) : (rcDecodeBit rc p).bit ≤ 1 := by
  unfold rcDecodeBit rcDecodeBitRaw
  dsimp only
  split <;> simp

theorem bitTreeDecodeAux_bounds (n : Nat) : ∀ (rc : RangeDecoder) (models : Nat → Nat) (m : Nat),
    m * 2 ^ n ≤ (bitTreeDecodeAux n rc models m).2.2 ∧
      (bitTreeDecodeAux n rc models m).2.2 < (m + 1) * 2 ^ n := by
  induction n with
  | zero => intro rc models m; simp [bitTreeDecodeAux]
  | succ n ih =>
    intro rc models m
    unfold bitTreeDecodeAux
    dsimp only
    have hb := rcDecodeBit_bit_le rc (models m)
    obtain ⟨hlo, hhi⟩ := ih (rcDecodeBit rc (models m)).rc
      (updf models m (rcDecodeBit rc (models m)).prob) (2 * m + (rcDecodeBit rc (models m)).bit)
    have hp : (0:Nat) < 2 ^ n := Nat.pos_pow_of_pos _ (by norm_num)
    constructor
    · refine le_trans ?_ hlo
      rw [pow_succ]
      nlinarith
    · refine lt_of_lt_of_le hhi ?_
      rw [pow_succ]
      nlinarith

/-- The forward bit-tree decode yields a symbol below `2 ^ n`. -/
theorem bitTreeDecode_sym_lt (n : Nat) (rc : RangeDecoder) (models : Nat → Nat) :
    (bitTreeDecode n rc models).sym < 2 ^ n := by
  unfold bitTreeDecode
  dsimp only
  obtain ⟨hlo, hhi⟩ := bitTreeDecodeAux_bounds n rc models 1
  omega

theorem reverseDecodeAux_le (cnt : Nat) : ∀ (i : Nat) (rc : RangeDecoder) (models : Nat → Nat)
    (start : Int) (m symbol : Nat),
    (reverseDecodeAux cnt i rc models start m symbol).2.2 + 2 ^ i ≤ symbol + 2 ^ (i + cnt) := by
  induction cnt with
  | zero => intro i rc models start m symbol; simp [reverseDecodeAux]
  | succ cnt ih =>
    intro i rc models start m symbol
    unfold reverseDecodeAux
    dsimp only
    have hb := rcDecodeBit_bit_le rc (models (start + m).toNat)
    have h := ih (i + 1) (rcDecodeBit rc (models (start + m).toNat)).rc
      (updf models (start + m).toNat (rcDecodeBit rc (models (start + m).toNat)).prob) start
      (2 * m + (rcDecodeBit rc (models (start + m).toNat)).bit)
      (symbol + (rcDecodeBit rc (models (start + m).toNat)).bit * 2 ^ i)
    have hp : (0:Nat) < 2 ^ i := Nat.pos_pow_of_pos _ (by norm_num)
    have e1 : 2 ^ (i + 1) = 2 * 2 ^ i := by rw [pow_succ]; ring
    have e2 : i + 1 + cnt = i + (cnt + 1) := by omega
    rw [e2] at h
    have e3 : (rcDecodeBit rc (models (start + m).toNat)).bit * 2 ^ i ≤ 2 ^ i := by
      nlinarith
    omega

/-- The reverse bit-tree decode yields a symbol below `2 ^ n`. -/
theorem reverseDecodeFrom_sym_lt (models : Nat → Nat) (start : Int) (rc : RangeDecoder)
    (n : Nat) : (reverseDecodeFrom models start rc n).sym < 2 ^ n := by
  unfold reverseDecodeFrom
  dsimp only
  have h := reverseDecodeAux_le n 0 rc models start 1 0
  have hp : (0:Nat) < 2 ^ n := Nat.pos_pow_of_pos _ (by norm_num)
  simp only [Nat.zero_add, pow_zero] at h
  omega

/-- The direct-bits decode grows the accumulator below `(acc + 1) * 2 ^ n`. -/
theorem rcDecodeDirectBitsAux_lt (n : Nat) : ∀ (rc : RangeDecoder) (acc : Nat),
    (rcDecodeDirectBitsAux n rc acc).2 < (acc + 1) * 2 ^ n := by
  induction n with
  | zero => intro rc acc; simp [rcDecodeDirectBitsAux]
  | succ n ih =>
    intro rc acc
    unfold rcDecodeDirectBitsAux
    dsimp only
    refine lt_of_lt_of_le (ih _ _) ?_
    rw [pow_succ]
    have hp : (0:Nat) < 2 ^ n := Nat.pos_pow_of_pos _ (by norm_num)
    have ht : 1 - (rc.code + U32M - rc.range / 2) % U32M / 2147483648 ≤ 1 := Nat.sub_le 1 _
    nlinarith

theorem toI32_small (n : Nat) (h : n < 2147483648) : toI32 n = (n : Int) := by
  unfold toI32 U32M
  rw [Nat.mod_eq_of_lt (by omega), if_pos h]
  omega

theorem toI32_large (n : Nat) (h1 : 2147483648 ≤ n) (h2 : n < 4294967296) :
    toI32 n = (n : Int) - 4294967296 := by
  unfold toI32 U32M
  rw [Nat.mod_eq_of_lt h2, if_neg (by omega)]
  omega

/-- The rep-match branch only promotes one of the four stored distances. -/
theorem lzmaDecodeRepMatch_rep0_cases (d : LzmaDecoder) (posState : Nat) :
    (lzmaDecodeRepMatch d posState).1.rep0 = d.rep0 ∨
    (lzmaDecodeRepMatch d posState).1.rep0 = d.rep1 ∨
    (lzmaDecodeRepMatch d posState).1.rep0 = d.rep2 ∨
    (lzmaDecodeRepMatch d posState).1.rep0 = d.rep3 := by
  unfold lzmaDecodeRepMatch
  dsimp only
  repeat' split
  all_goals simp

theorem lzmaDecodeRepMatch_rep0_bounds (d : LzmaDecoder) (posState : Nat)
    (h0 : 0 ≤ d.rep0 ∧ d.rep0 < 2147483648) (h1 : 0 ≤ d.rep1 ∧ d.rep1 < 2147483648)
    (h2 : 0 ≤ d.rep2 ∧ d.rep2 < 2147483648) (h3 : 0 ≤ d.rep3 ∧ d.rep3 < 2147483648) :
    0 ≤ (lzmaDecodeRepMatch d posState).1.rep0 ∧
      (lzmaDecodeRepMatch d posState).1.rep0 < 2147483648 := by
  rcases lzmaDecodeRepMatch_rep0_cases d posState with h | h | h | h <;> rw [h] <;> omega

/-- Distance range of the tail of the normal-match branch (everything after
the position-slot decode): nonnegative below `2^31` outside the
end-position branch, and within `[-2^31, 2^31)` inside it. -/
theorem lzmaNormalTail_bounds (posSlot : Nat) (d : LzmaDecoder) (len : Nat) (r : DistLenRes)
    (hr : r =
      if posSlot ≥ 4 then
        let numDirectBits := (posSlot >>> 1) - 1
        let rep0 : Int := jsShl32 (2 ||| (posSlot &&& 1)) numDirectBits
        if posSlot < 14 then
          let rv := reverseDecodeFrom d.posDecoders (rep0 - posSlot - 1) d.rangeDecoder
            numDirectBits
          { dec := { d with rangeDecoder := rv.rc, posDecoders := rv.models, rep0 := rep0 + rv.sym }, len := len, endPosBranch := false }
        else
          let db := rcDecodeDirectBitsAux (numDirectBits - 4) d.rangeDecoder 0
          let rep0 := rep0 + (db.2 <<< 4 : Nat)
          let av := reverseDecodeFrom d.posAlignDecoder 0 db.1 4
          { dec := { d with rangeDecoder := av.rc, posAlignDecoder := av.models, rep0 := rep0 + av.sym }, len := len, endPosBranch := true }
      else
        { dec := { d with rep0 := posSlot }, len := len, endPosBranch := false })
    (hS : posSlot < 64) :
    (r.endPosBranch = false → 0 ≤ r.dec.rep0 ∧ r.dec.rep0 < 2147483648) ∧
    (r.endPosBranch = true → -2147483648 ≤ r.dec.rep0 ∧ r.dec.rep0 < 2147483648) := by
  have hand : posSlot &&& 1 = 0 ∨ posSlot &&& 1 = 1 := by
    have := Nat.and_le_right (n := posSlot) (m := 1)
    omega
  have hc3 : 2 ||| (posSlot &&& 1) ≤ 3 := by
    rcases hand with hb | hb <;> rw [hb] <;> decide
  have hc2 : 2 ≤ 2 ||| (posSlot &&& 1) := by
    rcases hand with hb | hb <;> rw [hb] <;> decide
  by_cases h4 : posSlot ≥ 4
  · rw [if_pos h4] at hr
    dsimp only at hr
    by_cases h14 : posSlot < 14
    · rw [if_pos h14] at hr
      subst hr
      dsimp only
      refine ⟨fun _ => ?_, fun h => by simp at h⟩
      have hP : 2 ^ ((posSlot >>> 1) - 1) ≤ 32 := by
        calc 2 ^ ((posSlot >>> 1) - 1) ≤ 2 ^ 5 := Nat.pow_le_pow_right (by norm_num) (by omega)
          _ = 32 := by norm_num
      have hKb : (2 ||| (posSlot &&& 1)) * 2 ^ ((posSlot >>> 1) - 1) ≤ 96 :=
        le_trans (Nat.mul_le_mul hc3 hP) (by norm_num)
      have hJ : jsShl32 (2 ||| (posSlot &&& 1)) ((posSlot >>> 1) - 1) =
          (((2 ||| (posSlot &&& 1)) * 2 ^ ((posSlot >>> 1) - 1) : Nat) : Int) := by
        unfold jsShl32
        rw [Nat.mod_eq_of_lt (by omega), Nat.shiftLeft_eq]
        exact toI32_small _ (by omega)
      have hrv := reverseDecodeFrom_sym_lt d.posDecoders
        (jsShl32 (2 ||| (posSlot &&& 1)) ((posSlot >>> 1) - 1) - posSlot - 1) d.rangeDecoder
        ((posSlot >>> 1) - 1)
      omega
    · rw [if_neg h14] at hr
      subst hr
      dsimp only
      refine ⟨fun h => by simp at h, fun _ => ?_⟩
      have h16g : ∀ k, 4 ≤ k → 16 * 2 ^ (k - 4) = 2 ^ k := by
        intro k hk
        have he : k - 4 + 4 = k := by omega
        calc 16 * 2 ^ (k - 4) = 2 ^ (k - 4) * 2 ^ 4 := by ring
          _ = 2 ^ (k - 4 + 4) := (pow_add 2 (k - 4) 4).symm
          _ = 2 ^ k := by rw [he]
      by_cases hnd29 : (posSlot >>> 1) - 1 ≤ 29
      · have hdb := rcDecodeDirectBitsAux_lt ((posSlot >>> 1) - 1 - 4) d.rangeDecoder 0
        rw [Nat.one_mul] at hdb
        have hav16 : (reverseDecodeFrom d.posAlignDecoder 0
            (rcDecodeDirectBitsAux ((posSlot >>> 1) - 1 - 4) d.rangeDecoder 0).1 4).sym < 16 := by
          have hav := reverseDecodeFrom_sym_lt d.posAlignDecoder 0
            (rcDecodeDirectBitsAux ((posSlot >>> 1) - 1 - 4) d.rangeDecoder 0).1 4
          have : (2:Nat) ^ 4 = 16 := by norm_num
          omega
        have hsl : (rcDecodeDirectBitsAux ((posSlot >>> 1) - 1 - 4) d.rangeDecoder 0).2 <<< 4 =
            (rcDecodeDirectBitsAux ((posSlot >>> 1) - 1 - 4) d.rangeDecoder 0).2 * 16 := by
          rw [Nat.shiftLeft_eq]
        have h16 := h16g ((posSlot >>> 1) - 1) (by omega)
        have hP : 2 ^ ((posSlot >>> 1) - 1) ≤ 536870912 := by
          calc 2 ^ ((posSlot >>> 1) - 1) ≤ 2 ^ 29 :=
              Nat.pow_le_pow_right (by norm_num) hnd29
            _ = 536870912 := by norm_num
        have hKb : (2 ||| (posSlot &&& 1)) * 2 ^ ((posSlot >>> 1) - 1) ≤ 1610612736 :=
          le_trans (Nat.mul_le_mul hc3 hP) (by norm_num)
        have hJ : jsShl32 (2 ||| (posSlot &&& 1)) ((posSlot >>> 1) - 1) =
            (((2 ||| (posSlot &&& 1)) * 2 ^ ((posSlot >>> 1) - 1) : Nat) : Int) := by
          unfold jsShl32
          rw [Nat.mod_eq_of_lt (by omega), Nat.shiftLeft_eq]
          exact toI32_small _ (by omega)
        omega
      · have hnd : (posSlot >>> 1) - 1 = 30 := by
          have hshr : posSlot >>> 1 = posSlot / 2 := Nat.shiftRight_eq_div_pow posSlot 1
          omega
        rw [hnd]
        have hdb30 := rcDecodeDirectBitsAux_lt (30 - 4) d.rangeDecoder 0
        rw [Nat.one_mul] at hdb30
        have hA : (2:Nat) ^ (30 - 4) = 67108864 := by norm_num
        have hav30 : (reverseDecodeFrom d.posAlignDecoder 0
            (rcDecodeDirectBitsAux (30 - 4) d.rangeDecoder 0).1 4).sym < 16 := by
          have := reverseDecodeFrom_sym_lt d.posAlignDecoder 0
            (rcDecodeDirectBitsAux (30 - 4) d.rangeDecoder 0).1 4
          have h4' : (2:Nat) ^ 4 = 16 := by norm_num
          omega
        have hsl30 : (rcDecodeDirectBitsAux (30 - 4) d.rangeDecoder 0).2 <<< 4 =
            (rcDecodeDirectBitsAux (30 - 4) d.rangeDecoder 0).2 * 16 := by
          rw [Nat.shiftLeft_eq]
        have hKb : (2 ||| (posSlot &&& 1)) * 2 ^ 30 ≤ 3221225472 := by
          calc (2 ||| (posSlot &&& 1)) * 2 ^ 30 ≤ 3 * 2 ^ 30 :=
              Nat.mul_le_mul_right _ hc3
            _ = 3221225472 := by norm_num
        have hK2 : 2147483648 ≤ (2 ||| (posSlot &&& 1)) * 2 ^ 30 := by
          calc (2147483648 : Nat) = 2 * 2 ^ 30 := by norm_num
            _ ≤ (2 ||| (posSlot &&& 1)) * 2 ^ 30 := Nat.mul_le_mul_right _ hc2
        have hJ : jsShl32 (2 ||| (posSlot &&& 1)) 30 =
            (((2 ||| (posSlot &&& 1)) * 2 ^ 30 : Nat) : Int) - 4294967296 := by
          unfold jsShl32
          rw [Nat.mod_eq_of_lt (by omega), Nat.shiftLeft_eq]
          exact toI32_large _ hK2 (by omega)
        have hA : (2:Nat) ^ (30 - 4) = 67108864 := by norm_num
        omega
  · rw [if_neg h4] at hr
    subst hr
    dsimp only
    refine ⟨fun _ => ⟨by positivity, by omega⟩, fun h => by simp at h⟩

set_option maxHeartbeats 1000000 in
/-- Distance range after a normal match. -/
theorem lzmaDecodeNormalMatch_rep0_bounds (d : LzmaDecoder) (posState : Nat) :
    ((lzmaDecodeNormalMatch d posState).endPosBranch = false →
      0 ≤ (lzmaDecodeNormalMatch d posState).dec.rep0 ∧
        (lzmaDecodeNormalMatch d posState).dec.rep0 < 2147483648) ∧
    ((lzmaDecodeNormalMatch d posState).endPosBranch = true →
      -2147483648 ≤ (lzmaDecodeNormalMatch d posState).dec.rep0 ∧
        (lzmaDecodeNormalMatch d posState).dec.rep0 < 2147483648) := by
  unfold lzmaDecodeNormalMatch
  exact lzmaNormalTail_bounds _ _ _ _ rfl (bitTreeDecode_sym_lt 6 _ _)

/-- Distance range after the whole match/rep resolution, assuming the four
stored distances are canonical unsigned 32-bit distances below `2^31`. -/
theorem lzmaDecodeMatchDistLen_rep0_bounds (d : LzmaDecoder) (posState : Nat)
    (h0 : 0 ≤ d.rep0 ∧ d.rep0 < 2147483648) (h1 : 0 ≤ d.rep1 ∧ d.rep1 < 2147483648)
    (h2 : 0 ≤ d.rep2 ∧ d.rep2 < 2147483648) (h3 : 0 ≤ d.rep3 ∧ d.rep3 < 2147483648) :
    ((lzmaDecodeMatchDistLen d posState).endPosBranch = false →
      0 ≤ (lzmaDecodeMatchDistLen d posState).dec.rep0 ∧
        (lzmaDecodeMatchDistLen d posState).dec.rep0 < 2147483648) ∧
    ((lzmaDecodeMatchDistLen d posState).endPosBranch = true →
      -2147483648 ≤ (lzmaDecodeMatchDistLen d posState).dec.rep0 ∧
        (lzmaDecodeMatchDistLen d posState).dec.rep0 < 2147483648) := by
  unfold lzmaDecodeMatchDistLen
  dsimp only
  split
  · dsimp only
    refine ⟨fun _ => ?_, fun h => by simp at h⟩
    exact lzmaDecodeRepMatch_rep0_bounds _ posState h0 h1 h2 h3
  · exact lzmaDecodeNormalMatch_rep0_bounds _ posState

theorem lzmaDecodeRepMatch_dict (d : LzmaDecoder) (posState : Nat) :
    (lzmaDecodeRepMatch d posState).1.dictionarySizeCheck = d.dictionarySizeCheck := by
  unfold lzmaDecodeRepMatch
  dsimp only
  repeat' split
  all_goals rfl

theorem lzmaDecodeNormalMatch_dict (d : LzmaDecoder) (posState : Nat) :
    (lzmaDecodeNormalMatch d posState).dec.dictionarySizeCheck = d.dictionarySizeCheck := by
  unfold lzmaDecodeNormalMatch
  dsimp only
  repeat' split
  all_goals rfl

/-- Distance and length resolution never changes `dictionarySizeCheck`. -/
theorem lzmaDecodeMatchDistLen_dict (d : LzmaDecoder) (posState : Nat) :
    (lzmaDecodeMatchDistLen d posState).dec.dictionarySizeCheck = d.dictionarySizeCheck := by
  unfold lzmaDecodeMatchDistLen
  dsimp only
  split
  · dsimp only
    exact lzmaDecodeRepMatch_dict _ posState
  · exact lzmaDecodeNormalMatch_dict _ posState

/-- The decoder state at which the C4 witness evaluates the match step: a
fresh decoder with a 4096-byte dictionary bound. -/
def c4dec : LzmaDecoder := { lzmaDecoderNew false with dictionarySizeCheck := 4096 }

/-- C4 (amended): with the four rep distances canonical (in `[0, 2^31)`),
(i) every match the step copies satisfies `rep0 < total_pos` and
`rep0 < dictionarySizeCheck` under the source's signed comparisons, and
(ii) the step throws `InvalidDistance` exactly when either the end-position
branch produced a negative distance other than the `-1` end marker — which
it does regardless of how large the dictionary bound is — or the decoded
distance is nonnegative and reaches `total_pos` or `dictionarySizeCheck`.
The first disjunct is where the claim's if-and-only-if fails: see
`c4_counterexample`. -/
theorem c4_match_distance_guard (d : LzmaDecoder) (posState cumPos : Nat)
    (h0 : 0 ≤ d.rep0 ∧ d.rep0 < 2147483648)
    (h1 : 0 ≤ d.rep1 ∧ d.rep1 < 2147483648)
    (h2 : 0 ≤ d.rep2 ∧ d.rep2 < 2147483648)
    (h3 : 0 ≤ d.rep3 ∧ d.rep3 < 2147483648) :
    (∀ m, lzmaMatchStep d posState cumPos = Except.ok m → m.marker = false →
      (lzmaDecodeMatchDistLen d posState).dec.rep0 < (cumPos : Int) ∧
      (lzmaDecodeMatchDistLen d posState).dec.rep0 < d.dictionarySizeCheck) ∧
    (lzmaMatchStep d posState cumPos = Except.error DecodeErr.invalidDistance ↔
      ((lzmaDecodeMatchDistLen d posState).endPosBranch = true ∧
          (lzmaDecodeMatchDistLen d posState).dec.rep0 < 0 ∧
          (lzmaDecodeMatchDistLen d posState).dec.rep0 ≠ -1) ∨
        (0 ≤ (lzmaDecodeMatchDistLen d posState).dec.rep0 ∧
          ((cumPos : Int) ≤ (lzmaDecodeMatchDistLen d posState).dec.rep0 ∨
            d.dictionarySizeCheck ≤ (lzmaDecodeMatchDistLen d posState).dec.rep0))) := by
  obtain ⟨hbf, hbt⟩ := lzmaDecodeMatchDistLen_rep0_bounds d posState h0 h1 h2 h3
  have hdp := lzmaDecodeMatchDistLen_dict d posState
  set r := lzmaDecodeMatchDistLen d posState with hrdef
  constructor
  · intro m hm hmark
    unfold lzmaMatchStep at hm
    dsimp only at hm
    rw [← hrdef] at hm
    split at hm
    · split at hm
      · simp only [Except.ok.injEq] at hm
        subst hm
        simp at hmark
      · simp at hm
    · split at hm
      · simp at hm
      · next hng =>
        push_neg at hng
        rw [hdp] at hng
        exact hng
  · unfold lzmaMatchStep
    dsimp only
    rw [← hrdef]
    split
    · next hneg =>
      obtain ⟨hnegb, hnegr⟩ := hneg
      split
      · next hm1 =>
        refine iff_of_false (by simp) ?_
        rintro (⟨_, _, hne⟩ | ⟨hge, _⟩)
        · exact hne hm1
        · omega
      · next hm1 =>
        exact iff_of_true rfl (Or.inl ⟨hnegb, hnegr, hm1⟩)
    · next hpos =>
      have hrange : 0 ≤ r.dec.rep0 ∧ r.dec.rep0 < 2147483648 := by
        cases hE : r.endPosBranch with
        | false => exact hbf hE
        | true =>
          have hb := hbt hE
          have hnn : ¬ r.dec.rep0 < 0 := fun hlt => hpos ⟨by rw [hE], hlt⟩
          omega
      split
      · next hg =>
        rw [hdp] at hg
        exact iff_of_true rfl (Or.inr ⟨hrange.1, hg⟩)
      · next hg =>
        push_neg at hg
        rw [hdp] at hg
        refine iff_of_false (by simp) ?_
        rintro (⟨hb, hlt, _⟩ | ⟨_, hB⟩)
        · exact hpos ⟨hb, hlt⟩
        · rcases hB with hB | hB <;> omega

/-- Witness for C4's amended theorem: on a fresh decoder over empty input
with `cumPos = 0`, the first decoded match has distance 0, which is not
below `total_pos = 0`, so the step reports `InvalidDistance`. -/
theorem c4_match_distance_guard_witness :
    lzmaMatchStep c4dec 0 0 = Except.error DecodeErr.invalidDistance :=
  (c4_match_distance_guard c4dec 0 0 (by decide) (by decide) (by decide)
    (by decide)).2.mpr (Or.inr ⟨by decide, Or.inl (by decide)⟩)

/-- Input bytes (produced by a range encoder) that drive a fresh decoder's
match step to position slot 63 with 26 zero direct bits and zero align bits,
i.e. to the signed distance `-2^30` (unsigned `3 * 2^30`). -/
def c4input : List Nat := [0, 7, 223, 252, 0, 0, 0, 0, 0, 0]

/-- A reachable decoder configuration the claim's if-and-only-if fails in:
the dictionary bound of property byte 40 (`0xFFFFFFFF`), the range decoder
bound to `c4input`. -/
def c4bad : LzmaDecoder :=
  { lzmaDecoderNew false with
      dictionarySizeCheck := 4294967295
      rangeDecoder := rcSetInput c4input 0 }

/-- C4 (counterexample): property byte 40 legitimately sets
`dictionarySizeCheck = 0xFFFFFFFF`; in that configuration the match step on
`c4input` decodes the distance `-2^30`, whose unsigned 32-bit value
`3 * 2^30` is below both `total_pos = 3 * 2^30 + 1` and the dictionary
bound, yet the step throws `InvalidDistance` — the claimed equivalence
between the error and a bounds violation does not hold. -/
theorem c4_counterexample :
    parseLzma2DictionarySize 40 = Except.ok 4294967295 ∧
    (lzmaSetDictionarySize (lzmaDecoderNew false) 4294967295).2.dictionarySizeCheck =
      c4bad.dictionarySizeCheck ∧
    (lzmaDecodeMatchDistLen c4bad 0).dec.rep0 = -1073741824 ∧
    intToU32 (lzmaDecodeMatchDistLen c4bad 0).dec.rep0 = 3221225472 ∧
    (3221225472 : Nat) < 3221225473 ∧
    ((3221225472 : Nat) : Int) < c4bad.dictionarySizeCheck ∧
    lzmaMatchStep c4bad 0 3221225473 = Except.error DecodeErr.invalidDistance :=
  ⟨rfl, rfl, rfl, rfl, by decide, by decide, rfl⟩

end XzCompat
